import Mathlib

/-!
Shallow embedding of the chess rules engine (Shad0wRim/chess) in Lean 4,
with theorems checking the natural-language specification against the code.

The embedding follows the Rust source file by file:
  * `src/board/square.rs`  -> `Square` (the 64-value enum, in declaration
    order A8, B8, ..., H8, A7, ..., H1, encoded as `Fin 64`), with
    `rank`, `file`, the stepping functions and `is_light`;
  * `src/board/line.rs`    -> `Line`, `Line.toList`, `Line.intersection`;
  * `src/pieces.rs`        -> `Piece`, `PieceType`;
  * `src/turn.rs`          -> `Turn`, `Move`, `CastlingType`, the bit flags;
  * `src/board.rs`         -> `ChessBoard` with `validate_and_complete_turn`,
    `update_board`, `check_gamestate`, `gen_fen`, FEN parsing, etc.;
  * `src/parser.rs`        -> `parse_move`;
  * `src/lib.rs`           -> `ChessGame.make_move`;
  * `src/utils.rs`         -> `Counter`.
Rust `String`s are modelled as `List Char`; the `HashMap<Square, Piece>` piece
table is modelled as a function `Square → Option Piece`, and iteration over it
happens in the canonical square order (all uses in the source are insensitive
to `HashMap` iteration order, as noted at each definition).
-/

/-- The type of a piece (src/pieces/piece_type.rs). -/
inductive PieceType
  | King | Queen | Rook | Bishop | Knight | Pawn
  deriving DecidableEq, Repr

/-- A chess piece: its type and its owner (src/pieces.rs). -/
structure Piece where
  piece : PieceType
  is_white : Bool
  deriving DecidableEq, Repr

/-- A rank or a file (src/board/line.rs). -/
inductive Line
  | Rank1 | Rank2 | Rank3 | Rank4 | Rank5 | Rank6 | Rank7 | Rank8
  | FileA | FileB | FileC | FileD | FileE | FileF | FileG | FileH
  deriving DecidableEq, Repr

/-- One of the 64 board squares (src/board/square.rs).  The `Fin 64` value is
the discriminant of the Rust enum, whose declaration order is
A8, B8, ..., H8, A7, ..., H7, ..., A1, ..., H1: index `r * 8 + f` holds the
square on file `f` (0 = file a) of the `r`-th rank from the top
(0 = rank 8, 7 = rank 1). -/
abbrev Square := Fin 64

/-- Index of the square's rank counted from the top: 0 for rank 8, 7 for rank 1. -/
def Square.rIdx (sq : Square) : Nat := sq.val / 8

/-- Index of the square's file: 0 for file a, 7 for file h. -/
def Square.fIdx (sq : Square) : Nat := sq.val % 8

/-- `Square::rank` (src/board/square.rs): the rank `Line` of a square. -/
def Square.rank (sq : Square) : Line :=
  match Square.rIdx sq with
  | 0 => .Rank8 | 1 => .Rank7 | 2 => .Rank6 | 3 => .Rank5
  | 4 => .Rank4 | 5 => .Rank3 | 6 => .Rank2 | _ => .Rank1

/-- `Square::file` (src/board/square.rs): the file `Line` of a square. -/
def Square.file (sq : Square) : Line :=
  match Square.fIdx sq with
  | 0 => .FileA | 1 => .FileB | 2 => .FileC | 3 => .FileD
  | 4 => .FileE | 5 => .FileF | 6 => .FileG | _ => .FileH

/-- `Square::is_light` (src/board/square.rs): light squares are those whose
rank-from-top and file indices have equal parity (a8 is light). -/
def Square.is_light (sq : Square) : Bool :=
  (Square.rIdx sq + Square.fIdx sq) % 2 == 0

/-- `Square::up` (src/board/square.rs): the square one rank toward rank 8,
`none` at the top edge. -/
def Square.up (sq : Square) : Option Square :=
  if h : sq.val < 8 then none else some ⟨sq.val - 8, by omega⟩

/-- `Square::down` (src/board/square.rs). -/
def Square.down (sq : Square) : Option Square :=
  if h : 56 ≤ sq.val then none else some ⟨sq.val + 8, by omega⟩

/-- `Square::right` (src/board/square.rs): one file toward file h. -/
def Square.right (sq : Square) : Option Square :=
  if h : sq.val % 8 = 7 then none
  else some ⟨sq.val + 1, by omega⟩

/-- `Square::left` (src/board/square.rs). -/
def Square.left (sq : Square) : Option Square :=
  if h : sq.val % 8 = 0 then none
  else some ⟨sq.val - 1, by omega⟩

/-- `Square::up_right` (src/board/square.rs). -/
def Square.up_right (sq : Square) : Option Square := (Square.up sq).bind Square.right

/-- `Square::up_left` (src/board/square.rs). -/
def Square.up_left (sq : Square) : Option Square := (Square.up sq).bind Square.left

/-- `Square::down_right` (src/board/square.rs). -/
def Square.down_right (sq : Square) : Option Square := (Square.down sq).bind Square.right

/-- `Square::down_left` (src/board/square.rs). -/
def Square.down_left (sq : Square) : Option Square := (Square.down sq).bind Square.left

/-- The file letter of a square, as printed by `Display for Square`. -/
def Square.fileChar (sq : Square) : Char :=
  match Square.fIdx sq with
  | 0 => 'a' | 1 => 'b' | 2 => 'c' | 3 => 'd'
  | 4 => 'e' | 5 => 'f' | 6 => 'g' | _ => 'h'

/-- The rank digit of a square, as printed by `Display for Square`. -/
def Square.rankChar (sq : Square) : Char :=
  match Square.rIdx sq with
  | 0 => '8' | 1 => '7' | 2 => '6' | 3 => '5'
  | 4 => '4' | 5 => '3' | 6 => '2' | _ => '1'

/-- `Display for Square` (src/board/square.rs): e.g. `e4`. -/
def Square.chars (sq : Square) : List Char := [Square.fileChar sq, Square.rankChar sq]

/-- `FromStr for Square` (src/board/square.rs): parses exactly the 64
two-character names. -/
def Square.fromChars (s : List Char) : Option Square :=
  match s with
  | [f, r] =>
    let fi : Option (Fin 8) :=
      match f with
      | 'a' => some 0 | 'b' => some 1 | 'c' => some 2 | 'd' => some 3
      | 'e' => some 4 | 'f' => some 5 | 'g' => some 6 | 'h' => some 7
      | _ => none
    let ri : Option (Fin 8) :=
      match r with
      | '8' => some 0 | '7' => some 1 | '6' => some 2 | '5' => some 3
      | '4' => some 4 | '3' => some 5 | '2' => some 6 | '1' => some 7
      | _ => none
    match fi, ri with
    | some f, some r => some ⟨r.val * 8 + f.val, by omega⟩
    | _, _ => none
  | _ => none

/-- Modelled from the spec: `Square::iterator` is used by the FEN parser and
the TUI but its definition is missing from the source snapshot.  The spec
(§4.2) serializes the board as 8 ranks high-to-low, each file a to h, so the
iterator yields the 64 squares in enum declaration order A8, B8, ..., H1. -/
def Square.iteratorList : List Square := List.finRange 64

/-- Whether the square lies on the given line. -/
def Square.onLine (sq : Square) (l : Line) : Bool :=
  Square.rank sq == l || Square.file sq == l

/-- `Line::is_file` (src/board/line.rs). -/
def Line.is_file (l : Line) : Bool :=
  match l with
  | .FileA | .FileB | .FileC | .FileD | .FileE | .FileF | .FileG | .FileH => true
  | _ => false

/-- `Line::is_rank` (src/board/line.rs). -/
def Line.is_rank (l : Line) : Bool := !l.is_file

/-- `Line::to_vec` (src/board/line.rs): the 8 squares of the line; ranks are
listed file a to h, files rank 1 to rank 8, as in the source tables. -/
def Line.toList (l : Line) : List Square :=
  if l.is_file then ((List.finRange 64).filter (fun sq => Square.onLine sq l)).reverse
  else (List.finRange 64).filter (fun sq => Square.onLine sq l)

/-- The rank-from-top index of a rank line (rank 8 is 0), `none` for files. -/
def Line.rankTopIdx (l : Line) : Option (Fin 8) :=
  match l with
  | .Rank8 => some 0 | .Rank7 => some 1 | .Rank6 => some 2 | .Rank5 => some 3
  | .Rank4 => some 4 | .Rank3 => some 5 | .Rank2 => some 6 | .Rank1 => some 7
  | _ => none

/-- The file index of a file line (file a is 0), `none` for ranks. -/
def Line.fileIdx (l : Line) : Option (Fin 8) :=
  match l with
  | .FileA => some 0 | .FileB => some 1 | .FileC => some 2 | .FileD => some 3
  | .FileE => some 4 | .FileF => some 5 | .FileG => some 6 | .FileH => some 7
  | _ => none

/-- `Line::intersection` (src/board/line.rs): a rank and a file meet in one
square; two ranks or two files meet in none. -/
def Line.intersection (a b : Line) : Option Square :=
  match a.rankTopIdx, b.fileIdx with
  | some r, some f => some ⟨r.val * 8 + f.val, by omega⟩
  | _, _ =>
    match a.fileIdx, b.rankTopIdx with
    | some f, some r => some ⟨r.val * 8 + f.val, by omega⟩
    | _, _ => none

/-- `Line::new` (src/board/line.rs): a line from its rank or file character. -/
def Line.fromChar (c : Char) : Option Line :=
  match c with
  | '1' => some .Rank1 | '2' => some .Rank2 | '3' => some .Rank3 | '4' => some .Rank4
  | '5' => some .Rank5 | '6' => some .Rank6 | '7' => some .Rank7 | '8' => some .Rank8
  | 'a' => some .FileA | 'b' => some .FileB | 'c' => some .FileC | 'd' => some .FileD
  | 'e' => some .FileE | 'f' => some .FileF | 'g' => some .FileG | 'h' => some .FileH
  | _ => none

/-! Named squares, `Square.A1` etc., with the enum discriminant of the source. -/

def Square.A8 : Square := ⟨0, by omega⟩
def Square.B8 : Square := ⟨1, by omega⟩
def Square.C8 : Square := ⟨2, by omega⟩
def Square.D8 : Square := ⟨3, by omega⟩
def Square.E8 : Square := ⟨4, by omega⟩
def Square.F8 : Square := ⟨5, by omega⟩
def Square.G8 : Square := ⟨6, by omega⟩
def Square.H8 : Square := ⟨7, by omega⟩
def Square.A7 : Square := ⟨8, by omega⟩
def Square.B7 : Square := ⟨9, by omega⟩
def Square.C7 : Square := ⟨10, by omega⟩
def Square.D7 : Square := ⟨11, by omega⟩
def Square.E7 : Square := ⟨12, by omega⟩
def Square.F7 : Square := ⟨13, by omega⟩
def Square.G7 : Square := ⟨14, by omega⟩
def Square.H7 : Square := ⟨15, by omega⟩
def Square.A6 : Square := ⟨16, by omega⟩
def Square.B6 : Square := ⟨17, by omega⟩
def Square.C6 : Square := ⟨18, by omega⟩
def Square.D6 : Square := ⟨19, by omega⟩
def Square.E6 : Square := ⟨20, by omega⟩
def Square.F6 : Square := ⟨21, by omega⟩
def Square.G6 : Square := ⟨22, by omega⟩
def Square.H6 : Square := ⟨23, by omega⟩
def Square.A5 : Square := ⟨24, by omega⟩
def Square.B5 : Square := ⟨25, by omega⟩
def Square.C5 : Square := ⟨26, by omega⟩
def Square.D5 : Square := ⟨27, by omega⟩
def Square.E5 : Square := ⟨28, by omega⟩
def Square.F5 : Square := ⟨29, by omega⟩
def Square.G5 : Square := ⟨30, by omega⟩
def Square.H5 : Square := ⟨31, by omega⟩
def Square.A4 : Square := ⟨32, by omega⟩
def Square.B4 : Square := ⟨33, by omega⟩
def Square.C4 : Square := ⟨34, by omega⟩
def Square.D4 : Square := ⟨35, by omega⟩
def Square.E4 : Square := ⟨36, by omega⟩
def Square.F4 : Square := ⟨37, by omega⟩
def Square.G4 : Square := ⟨38, by omega⟩
def Square.H4 : Square := ⟨39, by omega⟩
def Square.A3 : Square := ⟨40, by omega⟩
def Square.B3 : Square := ⟨41, by omega⟩
def Square.C3 : Square := ⟨42, by omega⟩
def Square.D3 : Square := ⟨43, by omega⟩
def Square.E3 : Square := ⟨44, by omega⟩
def Square.F3 : Square := ⟨45, by omega⟩
def Square.G3 : Square := ⟨46, by omega⟩
def Square.H3 : Square := ⟨47, by omega⟩
def Square.A2 : Square := ⟨48, by omega⟩
def Square.B2 : Square := ⟨49, by omega⟩
def Square.C2 : Square := ⟨50, by omega⟩
def Square.D2 : Square := ⟨51, by omega⟩
def Square.E2 : Square := ⟨52, by omega⟩
def Square.F2 : Square := ⟨53, by omega⟩
def Square.G2 : Square := ⟨54, by omega⟩
def Square.H2 : Square := ⟨55, by omega⟩
def Square.A1 : Square := ⟨56, by omega⟩
def Square.B1 : Square := ⟨57, by omega⟩
def Square.C1 : Square := ⟨58, by omega⟩
def Square.D1 : Square := ⟨59, by omega⟩
def Square.E1 : Square := ⟨60, by omega⟩
def Square.F1 : Square := ⟨61, by omega⟩
def Square.G1 : Square := ⟨62, by omega⟩
def Square.H1 : Square := ⟨63, by omega⟩

/-- The FEN letter of a piece (`Display` with the alternate flag in
src/pieces.rs): uppercase for white, lowercase for black. -/
def Piece.fenChar (pc : Piece) : Char :=
  match pc.piece, pc.is_white with
  | .King, true => 'K' | .Queen, true => 'Q' | .Rook, true => 'R'
  | .Bishop, true => 'B' | .Knight, true => 'N' | .Pawn, true => 'P'
  | .King, false => 'k' | .Queen, false => 'q' | .Rook, false => 'r'
  | .Bishop, false => 'b' | .Knight, false => 'n' | .Pawn, false => 'p'

/-- `TryFrom<char> for PieceType` (src/pieces/piece_type.rs). -/
def PieceType.tryFromChar (c : Char) : Option PieceType :=
  match c with
  | 'K' => some .King | 'Q' => some .Queen | 'R' => some .Rook
  | 'B' => some .Bishop | 'N' => some .Knight | 'P' => some .Pawn
  | _ => none

/-- The type of source used for disambiguation (src/board/source.rs). -/
inductive Source
  | line (l : Line)
  | square (sq : Square)
  deriving DecidableEq, Repr

/-- The information specifying a piece move (src/turn/move.rs); the flag byte
is a `u8` bit set modelled as a `Nat`. -/
structure Move where
  piece : PieceType
  dst : Square
  flags : Nat
  src : Option Source
  promotion : Option PieceType
  deriving DecidableEq, Repr

/-- The type of castling (src/turn/castling.rs). -/
inductive CastlingType
  | Long | Short
  deriving DecidableEq, Repr

/-- The type of turn (src/turn.rs). -/
inductive Turn
  | castling (kind : CastlingType) (flags : Nat)
  | move (m : Move)
  deriving DecidableEq, Repr

/-- Bit flag constants from `mod flags` (src/turn.rs). -/
def Flags.NONE : Nat := 0

/-- `flags::CHECK` (src/turn.rs). -/
def Flags.CHECK : Nat := 1

/-- `flags::CHECKMATE` (src/turn.rs). -/
def Flags.CHECKMATE : Nat := 2

/-- `flags::CAPTURE` (src/turn.rs). -/
def Flags.CAPTURE : Nat := 4

/-- `is_flag_set` (src/board.rs). -/
def is_flag_set (flags check_flag : Nat) : Bool := Nat.land flags check_flag != 0

/-- `Turn::new` (src/turn.rs): builds a fully qualified move from a piece, its
location, and its destination, turning a king move from e1/e8 to g- or
c-squares into castling. -/
def Turn.new (loc : Square) (piece : Piece) (dst : Square) : Turn :=
  if piece.piece == PieceType.King && (loc == Square.E1 || loc == Square.E8) then
    if dst == Square.G1 || dst == Square.G8 then .castling .Short 0
    else if dst == Square.C1 || dst == Square.C8 then .castling .Long 0
    else .move { piece := piece.piece, dst := dst, flags := 0,
                 src := some (.square loc), promotion := none }
  else .move { piece := piece.piece, dst := dst, flags := 0,
               src := some (.square loc), promotion := none }

/-- Ways that a turn can be incorrect (src/board.rs). -/
inductive TurnError
  | NoTarget | NeedLine | NeedFile | NeedSquare | OverSpecification
  | MissingAtSquare | MissingInLine | BothInLine | KingInCheck
  | CastleLostRights | CastlePathBlocked | CastleThroughCheck
  | NeedCheckSpecifier | NeedCheckmateSpecifier | NeedCaptureSpecifier
  | RemoveCheckmateSpecifier | RemoveCheckSpecifier | RemoveCaptureSpecifier
  deriving DecidableEq, Repr

/-- The type of win (src/board.rs). -/
inductive WinType
  | Checkmate | Resign | Timeout
  deriving DecidableEq, Repr

/-- The information describing the win state (src/board.rs). -/
structure Win where
  is_white : Bool
  kind : WinType
  deriving DecidableEq, Repr

/-- The type of draw (src/board.rs). -/
inductive DrawType
  | Stalemate | FiftyMove | ThreefoldRepitition | InsufficientMaterial | Offer
  deriving DecidableEq, Repr

/-- The current game state (src/board.rs). -/
inductive GameState
  | Continue
  | Win (w : Win)
  | Draw (d : DrawType)
  | Stop
  deriving DecidableEq, Repr

/-- Castling rights (src/board.rs, the four-boolean model). -/
structure CastlingRights where
  white_kingside : Bool
  white_queenside : Bool
  black_kingside : Bool
  black_queenside : Bool
  deriving DecidableEq, Repr

/-- `Default for CastlingRights` (src/board.rs): all rights held. -/
def CastlingRights.initial : CastlingRights := ⟨true, true, true, true⟩

/-- The board state (src/board.rs).  The `HashMap<Square, Piece>` is modelled
as a function `Square → Option Piece` (`HashMap` equality is key-value-set
equality, i.e. function equality); the clocks are `u8`/`u16` in the source and
are modelled as `Nat` (no operation in the source ever wraps them within the
ranges the claims concern). -/
structure ChessBoard where
  piece_locs : Square → Option Piece
  is_white : Bool
  castling : CastlingRights
  en_passant : Option Square
  half_move_clock : Nat
  full_move_number : Nat

instance : DecidableEq ChessBoard := fun a b =>
  decidable_of_iff
    (a.piece_locs = b.piece_locs ∧ a.is_white = b.is_white ∧ a.castling = b.castling
      ∧ a.en_passant = b.en_passant ∧ a.half_move_clock = b.half_move_clock
      ∧ a.full_move_number = b.full_move_number)
    (by cases a; cases b; simp)

/-- `ChessBoard::get` (src/board.rs). -/
def ChessBoard.get (b : ChessBoard) (sq : Square) : Option Piece := b.piece_locs sq

/-- `ChessBoard::insert` (src/board.rs). -/
def ChessBoard.insert (b : ChessBoard) (sq : Square) (pc : Piece) : ChessBoard :=
  { b with piece_locs := fun x => if x = sq then some pc else b.piece_locs x }

/-- `ChessBoard::remove` (src/board.rs). -/
def ChessBoard.remove (b : ChessBoard) (sq : Square) : ChessBoard :=
  { b with piece_locs := fun x => if x = sq then none else b.piece_locs x }

/-- The piece table as a list, in canonical square order.  The source iterates
the `HashMap` in arbitrary order; every use in the source is insensitive to
that order (membership tests, `all`/`any`, counts, and first-element picks of
lists that are singletons in the relevant cases), so the canonical order is a
faithful model. -/
def ChessBoard.pieceList (b : ChessBoard) : List (Square × Piece) :=
  (List.finRange 64).filterMap (fun sq => (b.piece_locs sq).map (fun pc => (sq, pc)))

/-- `ChessBoard::find_pieces` (src/board.rs). -/
def ChessBoard.find_pieces (b : ChessBoard) (piece : Piece) : List (Square × Piece) :=
  b.pieceList.filter (fun e => e.2.piece == piece.piece && e.2.is_white == piece.is_white)

/-- `ChessBoard::get_player_pieces` (src/board.rs). -/
def ChessBoard.get_player_pieces (b : ChessBoard) (is_white : Bool) : List (Square × Piece) :=
  b.pieceList.filter (fun e => e.2.is_white == is_white)

/-- The `stop_going` sliding walk of `gen_targets` (src/board.rs): step in a
direction, collecting squares, stopping after an occupied square (inclusive)
or at the board edge.  Fuel 8 bounds the walk (at most 7 steps exist). -/
def ChessBoard.slide (b : ChessBoard) (dir : Square → Option Square) : Nat → Square → List Square
  | 0, _ => []
  | fuel + 1, curr =>
    match dir curr with
    | none => []
    | some next =>
      if (b.get next).isSome then [next]
      else next :: b.slide dir fuel next

/-- The eight king/queen directions, in source order. -/
def allDirections : List (Square → Option Square) :=
  [Square.up, Square.down, Square.right, Square.left,
   Square.up_right, Square.up_left, Square.down_right, Square.down_left]

/-- The four rook directions, in source order. -/
def rookDirections : List (Square → Option Square) :=
  [Square.up, Square.down, Square.right, Square.left]

/-- The four bishop directions, in source order. -/
def bishopDirections : List (Square → Option Square) :=
  [Square.up_right, Square.up_left, Square.down_right, Square.down_left]

/-- The eight knight jumps `uur, uul, rru, rrd, ddr, ddl, llu, lld`, in
source order (src/board.rs `gen_targets`). -/
def knightDirections : List (Square → Option Square) :=
  [fun sq => ((Square.up sq).bind Square.up).bind Square.right,
   fun sq => ((Square.up sq).bind Square.up).bind Square.left,
   fun sq => ((Square.right sq).bind Square.right).bind Square.up,
   fun sq => ((Square.right sq).bind Square.right).bind Square.down,
   fun sq => ((Square.down sq).bind Square.down).bind Square.right,
   fun sq => ((Square.down sq).bind Square.down).bind Square.left,
   fun sq => ((Square.left sq).bind Square.left).bind Square.up,
   fun sq => ((Square.left sq).bind Square.left).bind Square.down]

/-- `ChessBoard::gen_targets` (src/board.rs): every square the piece attacks,
friendly-occupied destinations included. -/
def ChessBoard.gen_targets (b : ChessBoard) (loc : Square) (pc : Piece) : List Square :=
  match pc.piece with
  | .King => allDirections.filterMap (fun d => d loc)
  | .Queen => allDirections.flatMap (fun d => b.slide d 8 loc)
  | .Rook => rookDirections.flatMap (fun d => b.slide d 8 loc)
  | .Bishop => bishopDirections.flatMap (fun d => b.slide d 8 loc)
  | .Knight => knightDirections.filterMap (fun d => d loc)
  | .Pawn =>
    if pc.is_white then [Square.up_right loc, Square.up_left loc].filterMap id
    else [Square.down_right loc, Square.down_left loc].filterMap id

/-- `ChessBoard::gen_moves` (src/board.rs): targets filtered to non-friendly
squares; for pawns the diagonal targets are kept only if enemy-occupied or
equal to the en-passant square, and the forward one- and two-step pushes are
appended. -/
def ChessBoard.gen_moves (b : ChessBoard) (loc : Square) (pc : Piece) : List Square :=
  let moves := (b.gen_targets loc pc).filter (fun sq =>
    match b.get sq with
    | none => true
    | some occ => occ.is_white != b.is_white)
  let moves :=
    if pc.piece == PieceType.Pawn then
      moves.filter (fun sq =>
        (match b.get sq with
         | some occ => occ.is_white != b.is_white
         | none => false) || b.en_passant == some sq)
    else moves
  if pc.piece == PieceType.Pawn && pc.is_white then
    let m1 :=
      match Square.up loc with
      | some next => if (b.get next).isNone then moves ++ [next] else moves
      | none => moves
    match (Square.up loc).bind Square.up with
    | some next2 =>
      if Square.rank loc == Line.Rank2 && (b.get next2).isNone &&
         (match Square.up loc with
          | some n1 => (b.get n1).isNone
          | none => false) then
        m1 ++ [next2]
      else m1
    | none => m1
  else if pc.piece == PieceType.Pawn && !pc.is_white then
    let m1 :=
      match Square.down loc with
      | some next => if (b.get next).isNone then moves ++ [next] else moves
      | none => moves
    match (Square.down loc).bind Square.down with
    | some next2 =>
      if Square.rank loc == Line.Rank7 && (b.get next2).isNone &&
         (match Square.down loc with
          | some n1 => (b.get n1).isNone
          | none => false) then
        m1 ++ [next2]
      else m1
    | none => m1
  else moves

/-- `ChessBoard::is_in_check` (src/board.rs): the first king of the colour is
targeted by some enemy piece (`false` if that king is absent). -/
def ChessBoard.is_in_check (b : ChessBoard) (is_white : Bool) : Bool :=
  match b.find_pieces ⟨.King, is_white⟩ with
  | king :: _ =>
    (b.get_player_pieces (!is_white)).any (fun fp =>
      (b.gen_targets fp.1 fp.2).contains king.1)
  | [] => false

/-- `ChessBoard::update_board` (src/board.rs): applies a pre-validated, fully
qualified turn unconditionally; the en-passant comparison intentionally reads
the just-recomputed `en_passant` field, exactly as the source does.  The two
source `panic!`/`expect` sites (move without a square source; stepping off the
board) are modelled as the identity on the board: they are outside the
documented contract and unreachable from the callers modelled here. -/
def ChessBoard.update_board (b : ChessBoard) (turn : Turn) : ChessBoard :=
  let b1 :=
    match turn with
    | .castling castling_type _ =>
      match castling_type, b.is_white with
      | .Long, true =>
        let bc := { b with castling :=
          { b.castling with white_kingside := false, white_queenside := false } }
        (((bc.remove Square.E1).remove Square.A1).insert
          Square.C1 ⟨.King, true⟩).insert Square.D1 ⟨.Rook, true⟩
      | .Long, false =>
        let bc := { b with castling :=
          { b.castling with black_kingside := false, black_queenside := false } }
        (((bc.remove Square.E8).remove Square.A8).insert
          Square.C8 ⟨.King, false⟩).insert Square.D8 ⟨.Rook, false⟩
      | .Short, true =>
        let bc := { b with castling :=
          { b.castling with white_kingside := false, white_queenside := false } }
        (((bc.remove Square.E1).remove Square.H1).insert
          Square.G1 ⟨.King, true⟩).insert Square.F1 ⟨.Rook, true⟩
      | .Short, false =>
        let bc := { b with castling :=
          { b.castling with black_kingside := false, black_queenside := false } }
        (((bc.remove Square.E8).remove Square.H8).insert
          Square.G8 ⟨.King, false⟩).insert Square.F8 ⟨.Rook, false⟩
    | .move m =>
      match m.src with
      | some (.square src) =>
        let cr := b.castling
        let cr :=
          if src = Square.A1 then { cr with white_queenside := false }
          else if src = Square.E1 then { cr with white_kingside := false, white_queenside := false }
          else if src = Square.H1 then { cr with white_kingside := false }
          else if src = Square.A8 then { cr with black_queenside := false }
          else if src = Square.E8 then { cr with black_kingside := false, black_queenside := false }
          else if src = Square.H8 then { cr with black_kingside := false }
          else cr
        let cr :=
          if m.dst = Square.A1 then { cr with white_queenside := false }
          else if m.dst = Square.H1 then { cr with white_kingside := false }
          else if m.dst = Square.A8 then { cr with black_queenside := false }
          else if m.dst = Square.H8 then { cr with black_kingside := false }
          else cr
        let newPiece : Piece := ⟨m.promotion.getD m.piece, b.is_white⟩
        let ep : Option Square :=
          if m.piece == PieceType.Pawn &&
             (if b.is_white then
                Line.Rank4.toList.contains m.dst && Line.Rank2.toList.contains src
              else
                Line.Rank5.toList.contains m.dst && Line.Rank7.toList.contains src) then
            (if b.is_white then Square.up src else Square.down src)
          else none
        let b2 := { b with castling := cr, en_passant := ep }
        let b3 := (b2.remove src).insert m.dst newPiece
        if b3.en_passant == some m.dst then
          if b.is_white then
            match Square.down m.dst with
            | some s => b3.remove s
            | none => b3
          else
            match Square.up m.dst with
            | some s => b3.remove s
            | none => b3
        else b3
      | _ => b
  let b5 :=
    match turn with
    | .move m =>
      if m.piece == PieceType.Pawn || (b1.get m.dst).isSome then
        { b1 with half_move_clock := 0 }
      else
        { b1 with half_move_clock := b1.half_move_clock + 1 }
    | .castling _ _ => b1
  let b6 :=
    if !b5.is_white then { b5 with full_move_number := b5.full_move_number + 1 } else b5
  { b6 with is_white := !b6.is_white }

/-- `ChessBoard::causes_check` (src/board.rs): clone, apply, test king safety. -/
def ChessBoard.causes_check (b : ChessBoard) (turn : Turn) (is_white : Bool) : Bool :=
  (b.update_board turn).is_in_check is_white

/-- `[Bishop, Knight].contains(..)` from `is_insufficient_material`. -/
def isMinor (pt : PieceType) : Bool := pt == .Bishop || pt == .Knight

/-- `ChessBoard::is_insufficient_material` (src/board.rs). -/
def ChessBoard.is_insufficient_material (b : ChessBoard) : Bool :=
  let white_pieces := b.get_player_pieces true
  let black_pieces := b.get_player_pieces false
  (white_pieces.length == 1 && black_pieces.length == 1)
  || (black_pieces.length == 1 && white_pieces.length == 2 &&
      (white_pieces.filter (fun e => isMinor e.2.piece)).length == 1)
  || (white_pieces.length == 1 && black_pieces.length == 2 &&
      (black_pieces.filter (fun e => isMinor e.2.piece)).length == 1)
  || (white_pieces.length == 2 && black_pieces.length == 2 &&
      (match white_pieces.find? (fun e => e.2.piece == PieceType.Bishop) with
       | some w =>
         match black_pieces.find? (fun e => e.2.piece == PieceType.Bishop) with
         | some bl => Square.is_light bl.1 == Square.is_light w.1
         | none => false
       | none => false))

/-- `Counter` (src/utils.rs), specialised to the string position keys used by
the game layer; modelled as an association list (all uses are insensitive to
entry order). -/
structure Counter where
  entries : List (List Char × Nat)
  deriving DecidableEq, Repr

/-- `Counter::new` (src/utils.rs). -/
def Counter.new : Counter := ⟨[]⟩

/-- `Counter::add` (src/utils.rs). -/
def Counter.add (c : Counter) (key : List Char) : Counter :=
  if c.entries.any (fun e => e.1 == key) then
    ⟨c.entries.map (fun e => if e.1 == key then (e.1, e.2 + 1) else e)⟩
  else ⟨c.entries ++ [(key, 1)]⟩

/-- `Counter::counts` (src/utils.rs). -/
def Counter.countsList (c : Counter) : List Nat := c.entries.map (fun e => e.2)

/-- `Counter::get` (src/utils.rs). -/
def Counter.getCount (c : Counter) (key : List Char) : Nat :=
  match c.entries.find? (fun e => e.1 == key) with
  | some e => e.2
  | none => 0

/-- `ChessBoard::is_threefold_repitition` (src/board.rs), name as in source. -/
def ChessBoard.is_threefold_repitition (_b : ChessBoard) (position_hist : Counter) : Bool :=
  position_hist.countsList.any (fun count => 3 ≤ count)

/-- `ChessBoard::check_gamestate` (src/board.rs). -/
def ChessBoard.check_gamestate (b : ChessBoard) (position_hist : Counter) : GameState :=
  let moves : List Turn :=
    (b.get_player_pieces b.is_white).flatMap (fun pc =>
      (b.gen_moves pc.1 pc.2).map (fun dst => Turn.new pc.1 pc.2 dst))
  let no_moves_left := moves.all (fun t => b.causes_check t b.is_white)
  if no_moves_left && b.is_in_check b.is_white then
    if !b.is_white then .Win ⟨true, .Checkmate⟩
    else .Win ⟨false, .Checkmate⟩
  else if no_moves_left then .Draw .Stalemate
  else if b.is_insufficient_material then .Draw .InsufficientMaterial
  else if b.is_threefold_repitition position_hist then .Draw .ThreefoldRepitition
  else if 100 ≤ b.half_move_clock then .Draw .FiftyMove
  else .Continue

/-- `ChessBoard::causes_checkmate` (src/board.rs). -/
def ChessBoard.causes_checkmate (b : ChessBoard) (turn : Turn) : Bool :=
  match (b.update_board turn).check_gamestate Counter.new with
  | .Win _ => true
  | _ => false

/-- The candidate-piece list built by the loop at the top of
`ChessBoard::validate_move` (src/board.rs): each piece of the given kind and
colour whose *unfiltered* move set contains the destination, paired with its
move set filtered by the self-check test.  Note the containment test happens
before the filtering, exactly as in the source.  The list does not depend on
the move's disambiguation source. -/
def ChessBoard.potential_moves (b : ChessBoard) (pieceTy : PieceType) (dst : Square) :
    List (Square × List Square) :=
  (b.find_pieces ⟨pieceTy, b.is_white⟩).filterMap (fun pc =>
    let generated := b.gen_moves pc.1 pc.2
    if generated.contains dst then
      some (pc.1, generated.filter (fun sq =>
        !(b.causes_check (Turn.new pc.1 pc.2 sq) b.is_white)))
    else none)

/-- `ChessBoard::validate_move` (src/board.rs): resolve the move's source by
the number of candidate pieces. -/
def ChessBoard.validate_move (b : ChessBoard) (m : Move) : Except TurnError Source :=
  let potential := b.potential_moves m.piece m.dst
  match potential with
  | [] => .error .NoTarget
  | [single] =>
    let source := single.1
    match m.src with
    | none =>
      if m.piece != PieceType.Pawn || Square.file m.dst == Square.file source then
        .ok (.square source)
      else .error .NeedFile
    | some (.square sq) =>
      if sq == source then .ok (.square source) else .error .MissingAtSquare
    | some (.line line) =>
      if m.piece == PieceType.Pawn then
        if line.is_file then .ok (.square source) else .error .NeedFile
      else .error .OverSpecification
  | [p1, p2] =>
    match m.src with
    | some (.line line) =>
      let matching := [p1, p2].filter (fun e => line.toList.contains e.1)
      match matching with
      | [] => .error .MissingInLine
      | [x] => .ok (.square x.1)
      | _ => .error .BothInLine
    | _ => .error .NeedLine
  | _ =>
    match m.src with
    | some (.square square) =>
      if potential.any (fun e => e.1 == square) then .ok (.square square)
      else .error .MissingAtSquare
    | _ => .error .NeedSquare

/-- `ChessBoard::validate_castling` (src/board.rs). -/
def ChessBoard.validate_castling (b : ChessBoard) (castling : CastlingType) :
    Except TurnError Unit :=
  let is_short := castling == CastlingType.Short
  let castling_squares : List Square :=
    match is_short, b.is_white with
    | true, true => [Square.F1, Square.G1]
    | true, false => [Square.F8, Square.G8]
    | false, true => [Square.D1, Square.C1, Square.B1]
    | false, false => [Square.D8, Square.C8, Square.B8]
  let castling_right :=
    match is_short, b.is_white with
    | true, true => b.castling.white_kingside
    | true, false => b.castling.black_kingside
    | false, true => b.castling.white_queenside
    | false, false => b.castling.black_queenside
  if ((b.get_player_pieces (!b.is_white)).any (fun fp =>
        let targets := b.gen_targets fp.1 fp.2
        castling_squares.any (fun sq => targets.contains sq)))
      || b.is_in_check b.is_white then
    .error .CastleThroughCheck
  else if castling_squares.any (fun sq => (b.get sq).isSome) then
    .error .CastlePathBlocked
  else if !castling_right then
    .error .CastleLostRights
  else .ok ()

/-- `ChessBoard::validate_and_complete_turn` (src/board.rs). -/
def ChessBoard.validate_and_complete_turn (b : ChessBoard) (turn : Turn) :
    Except TurnError Turn :=
  match turn with
  | .move m =>
    match b.validate_move m with
    | .ok src => .ok (.move { m with src := some src })
    | .error e => .error e
  | .castling c _ =>
    match b.validate_castling c with
    | .ok _ => .ok turn
    | .error e => .error e

/-- `ChessBoard::get_minimum_move` (src/board.rs): try, in order, no
disambiguation, file-only, rank-only; return the first that validates, else
fall back to the fully qualified turn.  (The source `unreachable!` for a move
without a square source is modelled as returning the turn unchanged.) -/
def ChessBoard.get_minimum_move (b : ChessBoard) (turn : Turn) : Turn :=
  match turn with
  | .castling _ _ => turn
  | .move m =>
    match m.src with
    | some (.square sq) =>
      let fileLn := Square.file sq
      let rankLn := Square.rank sq
      let turn_copies : List Turn :=
        [.move { m with src := none },
         .move { m with src := some (.line fileLn) },
         .move { m with src := some (.line rankLn) }]
      let min_copy := turn_copies.find? (fun t => (b.validate_and_complete_turn t).isOk)
      min_copy.getD turn
    | _ => turn

/-- `ChessBoard::enforce_flags` (src/board.rs): caller flags checked against
the simulated truth, in source order (capture, checkmate with early success,
check, own-king safety). -/
def ChessBoard.enforce_flags (b : ChessBoard) (turn : Turn) : Except TurnError Unit :=
  let flags :=
    match turn with
    | .castling _ f => f
    | .move m => m.flags
  let captureCheck : Except TurnError Unit :=
    match turn with
    | .move m =>
      match (b.get m.dst).isSome, is_flag_set flags Flags.CAPTURE with
      | true, true => .ok ()
      | true, false => .error .NeedCaptureSpecifier
      | false, true => .error .RemoveCaptureSpecifier
      | false, false => .ok ()
    | _ => .ok ()
  match captureCheck with
  | .error e => .error e
  | .ok _ =>
    match b.causes_checkmate turn, is_flag_set flags Flags.CHECKMATE with
    | true, true => .ok ()
    | true, false => .error .NeedCheckmateSpecifier
    | false, true => .error .RemoveCheckmateSpecifier
    | false, false =>
      match b.causes_check turn (!b.is_white), is_flag_set flags Flags.CHECK with
      | true, false => .error .NeedCheckSpecifier
      | false, true => .error .RemoveCheckSpecifier
      | _, _ =>
        if b.causes_check turn b.is_white then .error .KingInCheck else .ok ()

/-- `ChessBoard::gen_flags` (src/board.rs). -/
def ChessBoard.gen_flags (b : ChessBoard) (turn : Turn) : Turn :=
  let f1 : Nat :=
    if b.causes_checkmate turn then Nat.lor 0 Flags.CHECKMATE
    else if b.causes_check turn (!b.is_white) then Nat.lor 0 Flags.CHECK
    else 0
  let f2 : Nat :=
    match turn with
    | .move m => if (b.get m.dst).isSome then Nat.lor f1 Flags.CAPTURE else f1
    | _ => f1
  match turn with
  | .castling ct _ => .castling ct f2
  | .move m => .move { m with flags := f2 }

/-- Decidable equality for `Except` results that computes by kernel
reduction (the derived instance rewrites with `Eq.rec` and gets stuck). -/
instance {e a : Type} [DecidableEq e] [DecidableEq a] : DecidableEq (Except e a) := fun x y =>
  match x, y with
  | .ok u, .ok v => decidable_of_iff (u = v) (by simp)
  | .error u, .error v => decidable_of_iff (u = v) (by simp)
  | .ok _, .error _ => isFalse (fun h => Except.noConfusion h)
  | .error _, .ok _ => isFalse (fun h => Except.noConfusion h)

/-- The standard starting position's piece table, as the association list of
`Default for ChessBoard` (src/board/default.rs), keyed by square index. -/
def startPieceList : List (Nat × Piece) :=
  [(56, ⟨.Rook, true⟩), (57, ⟨.Knight, true⟩), (58, ⟨.Bishop, true⟩),
   (59, ⟨.Queen, true⟩), (60, ⟨.King, true⟩), (61, ⟨.Bishop, true⟩),
   (62, ⟨.Knight, true⟩), (63, ⟨.Rook, true⟩),
   (0, ⟨.Rook, false⟩), (1, ⟨.Knight, false⟩), (2, ⟨.Bishop, false⟩),
   (3, ⟨.Queen, false⟩), (4, ⟨.King, false⟩), (5, ⟨.Bishop, false⟩),
   (6, ⟨.Knight, false⟩), (7, ⟨.Rook, false⟩),
   (48, ⟨.Pawn, true⟩), (49, ⟨.Pawn, true⟩), (50, ⟨.Pawn, true⟩),
   (51, ⟨.Pawn, true⟩), (52, ⟨.Pawn, true⟩), (53, ⟨.Pawn, true⟩),
   (54, ⟨.Pawn, true⟩), (55, ⟨.Pawn, true⟩),
   (8, ⟨.Pawn, false⟩), (9, ⟨.Pawn, false⟩), (10, ⟨.Pawn, false⟩),
   (11, ⟨.Pawn, false⟩), (12, ⟨.Pawn, false⟩), (13, ⟨.Pawn, false⟩),
   (14, ⟨.Pawn, false⟩), (15, ⟨.Pawn, false⟩)]

/-- `Default for ChessBoard`: the standard starting position, white to move,
all castling rights, no en-passant target.  (The snapshot's `default.rs`
carries stale field names from an earlier board model; the piece placement is
its array, and the remaining fields are the standard initial values the spec
requires: clock 0, move number 1.) -/
def ChessBoard.startBoard : ChessBoard :=
  { piece_locs := fun sq => startPieceList.lookup sq.val,
    is_white := true,
    castling := CastlingRights.initial,
    en_passant := none,
    half_move_clock := 0,
    full_move_number := 1 }

/-- One step of the run-length-encoding fold in `gen_fen` (src/board.rs):
push the character, except that a digit following a digit increments the last
character instead. -/
def rleStep (acc : List Char) (c : Char) : List Char :=
  match acc.getLast? with
  | some lastc =>
    if c.isDigit && lastc.isDigit then acc.dropLast ++ [Char.ofNat (lastc.toNat + 1)]
    else acc ++ [c]
  | none => acc ++ [c]

/-- One rank of the FEN string (`gen_fen`, src/board.rs): piece letters and
`'1'` placeholders folded through `rleStep`. -/
def ChessBoard.rankChars (b : ChessBoard) (rank : Line) : List Char :=
  (rank.toList.map (fun loc =>
    match b.get loc with
    | some pc => pc.fenChar
    | none => '1')).foldl rleStep []

/-- The ranks in FEN order: `('1'..='8').rev()` (src/board.rs `gen_fen`). -/
def fenRanks : List Line :=
  [.Rank8, .Rank7, .Rank6, .Rank5, .Rank4, .Rank3, .Rank2, .Rank1]

/-- Join rank strings with `'/'` (`gen_fen` pushes a `'/'` after every rank
and removes the trailing one). -/
def joinSlash : List (List Char) → List Char
  | [] => []
  | [r] => r
  | r :: rest => r ++ '/' :: joinSlash rest

/-- Decimal digits of a number, most significant first, with fuel bounding the
digit count (structural recursion so that proofs can compute). -/
def natCharsFuel : Nat → Nat → List Char → List Char
  | 0, _, acc => acc
  | fuel + 1, n, acc =>
    if n = 0 then acc
    else natCharsFuel fuel (n / 10) (Char.ofNat (48 + n % 10) :: acc)

/-- Decimal representation of a `Nat` (`to_string` on the move counters). -/
def natChars (n : Nat) : List Char := if n = 0 then ['0'] else natCharsFuel (n + 1) n []

/-- The castling-rights field of the FEN string (`gen_fen`, src/board.rs). -/
def CastlingRights.fenChars (cr : CastlingRights) : List Char :=
  let s := (if cr.white_kingside then ['K'] else [])
        ++ (if cr.white_queenside then ['Q'] else [])
        ++ (if cr.black_kingside then ['k'] else [])
        ++ (if cr.black_queenside then ['q'] else [])
  if s.isEmpty then ['-'] else s

/-- `ChessBoard::gen_fen` (src/board.rs): the six space-separated fields. -/
def ChessBoard.gen_fen (b : ChessBoard) : List Char :=
  joinSlash (fenRanks.map b.rankChars) ++ [' ']
    ++ [if b.is_white then 'w' else 'b'] ++ [' ']
    ++ b.castling.fenChars ++ [' ']
    ++ (match b.en_passant with
        | some ep => Square.chars ep
        | none => ['-']) ++ [' ']
    ++ natChars b.half_move_clock ++ [' ']
    ++ natChars b.full_move_number

/-- Rust `str::split_whitespace`, with an explicit reversed-current-word
accumulator (structural recursion so that proofs can compute). -/
def splitWsAux : List Char → List Char → List (List Char)
  | [], cur => if cur.isEmpty then [] else [cur.reverse]
  | c :: rest, cur =>
    if c.isWhitespace then
      if cur.isEmpty then splitWsAux rest [] else cur.reverse :: splitWsAux rest []
    else splitWsAux rest (c :: cur)

/-- Rust `str::split_whitespace`: maximal whitespace-free words. -/
def splitWs (s : List Char) : List (List Char) := splitWsAux s []

/-- Rust `str::split('/')` (keeps empty pieces). -/
def splitSlash : List Char → List (List Char)
  | [] => [[]]
  | c :: rest =>
    if c = '/' then [] :: splitSlash rest
    else
      match splitSlash rest with
      | w :: ws => (c :: w) :: ws
      | [] => [[c]]

/-- `char::to_digit(10)`. -/
def charToDigit (c : Char) : Option Nat :=
  if c.isDigit then some (c.toNat - 48) else none

/-- Value of a digit string, most significant first. -/
def digitsVal (s : List Char) : Nat := s.foldl (fun a c => a * 10 + (c.toNat - 48)) 0

/-- Rust `uN::from_str` (`u8`/`u16` with the given bound): an optional leading
`'+'`, then one or more digits, rejecting values above the bound. -/
def parseNatBounded (bound : Nat) (s : List Char) : Option Nat :=
  let t := if s.head? = some '+' then s.tail else s
  if t.isEmpty then none
  else if t.all Char.isDigit then
    let v := digitsVal t
    if v ≤ bound then some v else none
  else none

/-- The inner loop of FEN board parsing (`FromStr for ChessBoard`,
src/board.rs): a digit advances the square iterator and the count, a letter
places a piece on the next square. -/
def parseRankChars : List Char → List Square → (Square → Option Piece) → Nat →
    Except String ((Square → Option Piece) × List Square × Nat)
  | [], sqs, f, count => .ok (f, sqs, count)
  | c :: rest, sqs, f, count =>
    match charToDigit c with
    | some num_empty => parseRankChars rest (sqs.drop num_empty) f (count + num_empty)
    | none =>
      match sqs with
      | [] => .error "Too many locations on the board"
      | sq :: sqs2 =>
        match PieceType.tryFromChar c.toUpper with
        | some pt =>
          parseRankChars rest sqs2
            (fun x => if x = sq then some ⟨pt, c.isUpper⟩ else f x) (count + 1)
        | none => .error "Invalid character in board"

/-- The per-rank loop of FEN board parsing: each `'/'`-separated segment must
account for exactly 8 squares. -/
def parseRanks : List (List Char) → List Square → (Square → Option Piece) →
    Except String ((Square → Option Piece) × List Square)
  | [], sqs, f => .ok (f, sqs)
  | r :: rs, sqs, f =>
    match parseRankChars r sqs f 0 with
    | .error e => .error e
    | .ok (f2, sqs2, count) =>
      if count ≠ 8 then .error "Invalid number of pieces on a line"
      else parseRanks rs sqs2 f2

/-- Sets the right named by a castling character (`FromStr for ChessBoard`). -/
def castleSet (cr : CastlingRights) (c : Char) : CastlingRights :=
  match c with
  | 'K' => { cr with white_kingside := true }
  | 'Q' => { cr with white_queenside := true }
  | 'k' => { cr with black_kingside := true }
  | 'q' => { cr with black_queenside := true }
  | _ => cr

/-- The castling-field parse loop of `FromStr for ChessBoard` (src/board.rs):
walks the canonical list `KQkq` against the input, accepting exactly ordered
subsets or `-`. -/
def castleLoop : List Char → List Char → List Char → CastlingRights →
    Except String CastlingRights
  | inp, [], _passed, cr =>
    match inp with
    | [] => .ok cr
    | _ :: _ => .error "Additional characters specified after `q` which is the end"
  | inp, t :: trest, passed, cr =>
    match inp with
    | [] => .ok cr
    | i :: irest =>
      if t = i then castleLoop irest trest (passed ++ [t]) (castleSet cr t)
      else if i = '-' then
        if irest.isEmpty then .ok cr
        else .error "Additional characters specified after `-`"
      else if !(i = 'K' || i = 'Q' || i = 'k' || i = 'q') then
        .error "Invalid characters in castling input"
      else if passed.contains i then .error "Out of order castling"
      else castleLoop inp trest (passed ++ [t]) cr

/-- The castling field of a FEN string. -/
def parseCastlingField (s : List Char) : Except String CastlingRights :=
  castleLoop s ['K', 'Q', 'k', 'q'] [] ⟨false, false, false, false⟩

/-- The en-passant field of a FEN string (`FromStr for ChessBoard`). -/
def parseEnPassantField (s : List Char) : Except String (Option Square) :=
  match s with
  | ['-'] => .ok none
  | l =>
    if l.length = 2 then
      match Square.fromChars l with
      | some sq => .ok (some sq)
      | none => .error "En passant was not a square"
    else .error "En passant was not a square"

/-- `FromStr for ChessBoard` (src/board.rs): parse a FEN string.  The source
reports a distinct message for each missing field; the reject set is the same
here with the missing-field messages collapsed. -/
def ChessBoard.from_fen (s : List Char) : Except String ChessBoard := do
  let fields := splitWs s
  match fields with
  | [boardF, playerF, castlingF, epF, hmcF, fmnF] =>
    let parsed ← parseRanks (splitSlash boardF) Square.iteratorList (fun _ => none)
    let is_white ← (match playerF with
      | ['w'] => Except.ok true
      | ['b'] => Except.ok false
      | _ => Except.error "Invalid player specified")
    let castling ← parseCastlingField castlingF
    let en_passant ← parseEnPassantField epF
    let half_move_clock ← (match parseNatBounded 255 hmcF with
      | some v => Except.ok v
      | none => Except.error "Half move clock was not a number")
    let full_move_number ← (match parseNatBounded 65535 fmnF with
      | some v => Except.ok v
      | none => Except.error "Full move number was not a number")
    pure { piece_locs := parsed.1, is_white := is_white, castling := castling,
           en_passant := en_passant, half_move_clock := half_move_clock,
           full_move_number := full_move_number }
  | _ =>
    if 6 < fields.length then Except.error "Additional fields specified"
    else Except.error "Could not find all six fields"

/-- Types of promotion errors (src/parser.rs). -/
inductive PromotionError
  | Must | Cant | Invalid (pc : PieceType)
  deriving DecidableEq, Repr

/-- Kind of parse error (src/parser.rs); the string payloads of
`ConversionError` are dropped (no claim inspects them). -/
inductive ParseErrorKind
  | InvalidChars | ExcessPieces | ExcessSquares | NeedSquare
  | PromotionError (e : PromotionError)
  | ConversionError
  | InvalidFen
  deriving DecidableEq, Repr

/-- Error type for parsing into a `Turn` (src/parser.rs). -/
structure ChessParseError where
  character : Char
  kind : ParseErrorKind
  deriving DecidableEq, Repr

/-- The character set accepted by `parse_move` (src/parser.rs). -/
def moveCharset : List Char :=
  ['a','b','c','d','e','f','g','h','1','2','3','4','5','6','7','8',
   '+','#','x','=','-','O','0','K','Q','R','B','N']

/-- Whether the second list starts with the first (`str::starts_with`). -/
def leadsWith : List Char → List Char → Bool
  | [], _ => true
  | _ :: _, [] => false
  | p :: ps, s :: ss => p == s && leadsWith ps ss

/-- Rust `str::contains` for a literal pattern. -/
def hasInfix (pat : List Char) : List Char → Bool
  | [] => leadsWith pat []
  | s :: ss => leadsWith pat (s :: ss) || hasInfix pat ss

/-- `parse_castling` (src/parser.rs). -/
def parse_castling (turn : List Char) : Option CastlingType :=
  if hasInfix ['0','-','0','-','0'] turn || hasInfix ['O','-','O','-','O'] turn then
    some .Long
  else if hasInfix ['0','-','0'] turn || hasInfix ['O','-','O'] turn then
    some .Short
  else none

/-- `get_flags` (src/parser.rs): `x` sets capture; `#` beats `+`. -/
def get_flags (turn : List Char) : Nat :=
  let f := Flags.NONE
  let f := if turn.contains 'x' then Nat.lor f Flags.CAPTURE else f
  if turn.contains '#' then Nat.lor f Flags.CHECKMATE
  else if turn.contains '+' then Nat.lor f Flags.CHECK
  else f

/-- `get_piece` (src/parser.rs): at most one uppercase letter, absence means
pawn. -/
def get_piece (turn : List Char) : Except ChessParseError PieceType :=
  let piece_options := turn.filter Char.isUpper
  match piece_options with
  | _ :: c1 :: _ => .error ⟨c1, .ExcessPieces⟩
  | [c] =>
    match PieceType.tryFromChar c with
    | some pt => .ok pt
    | none => .error ⟨c, .ConversionError⟩
  | [] => .ok PieceType.Pawn

/-- The square-character alphabet of `get_squares` (src/parser.rs). -/
def squareAlphabet : List Char :=
  ['a','b','c','d','e','f','g','h','1','2','3','4','5','6','7','8']

/-- `get_squares` (src/parser.rs): the last two square characters are the
destination; 0, 1 or 2 leading ones are the disambiguation.  (The source
`expect`s that a single leading character forms a `Line`; it always does,
being drawn from the square alphabet.) -/
def get_squares (turn : List Char) : Except ChessParseError (Square × Option Source) :=
  let square_chars := turn.filter (fun c => squareAlphabet.contains c)
  match square_chars with
  | [] => .error ⟨' ', .NeedSquare⟩
  | [_] => .error ⟨' ', .NeedSquare⟩
  | [a, b] =>
    match Square.fromChars [a, b] with
    | some sq => .ok (sq, none)
    | none => .error ⟨a, .ConversionError⟩
  | [a, b, c] =>
    match Square.fromChars [b, c] with
    | some sq =>
      match Line.fromChar a with
      | some ln => .ok (sq, some (.line ln))
      | none => .ok (sq, some (.line Line.Rank1))
    | none => .error ⟨b, .ConversionError⟩
  | [a, b, c, d] =>
    match Square.fromChars [c, d] with
    | some sq =>
      match Square.fromChars [a, b] with
      | some src => .ok (sq, some (.square src))
      | none => .error ⟨a, .ConversionError⟩
    | none => .error ⟨c, .ConversionError⟩
  | _ :: _ :: _ :: _ :: e :: _ => .error ⟨e, .ExcessSquares⟩

/-- `verify_move` (src/parser.rs): the promotion checks. -/
def verify_move (m : Move) : Except PromotionError Turn :=
  match m.promotion with
  | some pc =>
    if pc == PieceType.King || pc == PieceType.Pawn then .error (.Invalid pc)
    else
      match Square.rank m.dst with
      | .Rank1 => .ok (.move m)
      | .Rank8 => .ok (.move m)
      | _ => .error .Cant
  | none =>
    match m.piece, Square.rank m.dst with
    | .Pawn, .Rank1 => .error .Must
    | .Pawn, .Rank8 => .error .Must
    | _, _ => .ok (.move m)

/-- `parse_move` (src/parser.rs). -/
def parse_move (input : List Char) : Except ChessParseError Turn :=
  if !(input.all (fun c => moveCharset.contains c)) then
    .error ⟨(input.find? (fun c => !(moveCharset.contains c))).getD ' ', .InvalidChars⟩
  else
    match parse_castling input with
    | some castling => .ok (.castling castling (get_flags input))
    | none =>
      match get_piece input with
      | .error e => .error e
      | .ok piece0 =>
        match get_squares input with
        | .error e => .error e
        | .ok (dst, src) =>
          let flags := get_flags input
          let pp : PieceType × Option PieceType :=
            if input.contains '=' then (PieceType.Pawn, some piece0)
            else (piece0, none)
          match verify_move { piece := pp.1, dst := dst, flags := flags,
                              src := src, promotion := pp.2 } with
          | .ok t => .ok t
          | .error e => .error ⟨'=', .PromotionError e⟩

/-- The game-orchestration state (src/lib.rs).  The display-only configuration
fields (`rotate_board`, `allow_undo`, `players`) are omitted: `make_move`
neither reads nor writes them. -/
structure ChessGame where
  board : ChessBoard
  game_state : GameState
  position_counter : Counter
  game_hist : List Turn
  enforce_flags : Bool
  deriving DecidableEq

/-- `Default for ChessGame` (src/lib.rs). -/
def ChessGame.default : ChessGame :=
  { board := ChessBoard.startBoard, game_state := .Continue,
    position_counter := Counter.new, game_hist := [], enforce_flags := true }

/-- Join words with single spaces (`.join(" ")` in `make_move`). -/
def joinSpace : List (List Char) → List Char
  | [] => []
  | [w] => w
  | w :: ws => w ++ ' ' :: joinSpace ws

/-- `ChessGame::make_move` (src/lib.rs), as a state transformer returning the
new game and the optional error.  The `&mut self` receiver is threaded
explicitly; each early `?` return carries the state as of that point (no field
of `self` has been written before the two fallible calls, as in the source).
The source's panic assertion that the completed move carries a square source
always passes (`validate_and_complete_turn` produces one) and is not modelled. -/
def ChessGame.make_move (g : ChessGame) (turn : Turn) : ChessGame × Option TurnError :=
  match g.board.validate_and_complete_turn turn with
  | .error e => (g, some e)
  | .ok full_turn =>
    let flagged : Except TurnError Turn :=
      if g.enforce_flags then
        match g.board.enforce_flags full_turn with
        | .error e => .error e
        | .ok _ => .ok full_turn
      else .ok (g.board.gen_flags full_turn)
    match flagged with
    | .error e => (g, some e)
    | .ok full_turn2 =>
      let trimmed_fen := joinSpace ((splitWs g.board.gen_fen).take 4)
      let counter2 := g.position_counter.add trimmed_fen
      let board2 := g.board.update_board full_turn2
      let hist2 := g.game_hist ++ [full_turn2]
      let state2 := board2.check_gamestate counter2
      ({ g with board := board2, position_counter := counter2,
                game_hist := hist2, game_state := state2 }, none)

/-! Concrete positions and turns used to settle the claims. -/

/-- A position where white can capture en passant: white pawn e5, black pawn
d5 (having just advanced d7-d5), kings e1/e8, en-passant target d6, white to
move. -/
def epBoard : ChessBoard :=
  { piece_locs := fun sq =>
      [(28, (⟨.Pawn, true⟩ : Piece)), (27, ⟨.Pawn, false⟩),
       (60, ⟨.King, true⟩), (4, ⟨.King, false⟩)].lookup sq.val,
    is_white := true,
    castling := ⟨false, false, false, false⟩,
    en_passant := some Square.D6,
    half_move_clock := 0,
    full_move_number := 3 }

/-- The fully qualified en-passant capture exd6 on `epBoard`. -/
def epMove : Move :=
  { piece := .Pawn, dst := Square.D6, flags := Flags.CAPTURE,
    src := some (.square Square.E5), promotion := none }

/-- The fully qualified knight move Ng1-f3. -/
def nf3Turn : Turn :=
  .move { piece := .Knight, dst := Square.F3, flags := 0,
          src := some (.square Square.G1), promotion := none }

/-- The undisambiguated knight move Nf3. -/
def nf3Plain : Move :=
  { piece := .Knight, dst := Square.F3, flags := 0, src := none, promotion := none }

/-- A position where white may castle short: Ke1, Rh1 vs Ke8, Rh8, with a
half-move clock of 5. -/
def castleBoard : ChessBoard :=
  { piece_locs := fun sq =>
      [(60, (⟨.King, true⟩ : Piece)), (63, ⟨.Rook, true⟩),
       (4, ⟨.King, false⟩), (7, ⟨.Rook, false⟩)].lookup sq.val,
    is_white := true,
    castling := CastlingRights.initial,
    en_passant := none,
    half_move_clock := 5,
    full_move_number := 10 }

/-- A position with a pinned knight: white Ke1, Ng1, Ne5; black Re8, Kh8;
the e5 knight is pinned against the king by the rook, and both knights
geometrically reach f3. -/
def pinBoard : ChessBoard :=
  { piece_locs := fun sq =>
      [(60, (⟨.King, true⟩ : Piece)), (62, ⟨.Knight, true⟩),
       (28, ⟨.Knight, true⟩), (4, ⟨.Rook, false⟩), (7, ⟨.King, false⟩)].lookup sq.val,
    is_white := true,
    castling := ⟨false, false, false, false⟩,
    en_passant := none,
    half_move_clock := 0,
    full_move_number := 1 }

/-- The pawn move e3 written with a (matching) rank disambiguation `2e3`. -/
def pawnE3Rank2 : Move :=
  { piece := .Pawn, dst := Square.E3, flags := 0,
    src := some (.line .Rank2), promotion := none }

/-- A minimal repetition testbed: white Ke1, Ng1; black Ke8, Ng8; no castling
rights; white to move. -/
def miniBoard : ChessBoard :=
  { piece_locs := fun sq =>
      [(60, (⟨.King, true⟩ : Piece)), (62, ⟨.Knight, true⟩),
       (4, ⟨.King, false⟩), (6, ⟨.Knight, false⟩)].lookup sq.val,
    is_white := true,
    castling := ⟨false, false, false, false⟩,
    en_passant := none,
    half_move_clock := 0,
    full_move_number := 1 }

/-- A game starting from `miniBoard` with the default configuration
(`enforce_flags` on). -/
def miniGame : ChessGame :=
  { board := miniBoard, game_state := .Continue, position_counter := Counter.new,
    game_hist := [], enforce_flags := true }

/-- Nf3 as parsed from notation. -/
def mvNf3 : Turn :=
  .move { piece := .Knight, dst := Square.F3, flags := 0, src := none, promotion := none }

/-- Nf6 as parsed from notation. -/
def mvNf6 : Turn :=
  .move { piece := .Knight, dst := Square.F6, flags := 0, src := none, promotion := none }

/-- Ng1 as parsed from notation. -/
def mvNg1 : Turn :=
  .move { piece := .Knight, dst := Square.G1, flags := 0, src := none, promotion := none }

/-- Ng8 as parsed from notation. -/
def mvNg8 : Turn :=
  .move { piece := .Knight, dst := Square.G8, flags := 0, src := none, promotion := none }

/-- The knight shuffle that repeats the initial position after every 4 plies. -/
def shuffleMoves : List Turn := [mvNf3, mvNf6, mvNg1, mvNg8, mvNf3, mvNf6, mvNg1, mvNg8]

/-- Apply a list of turns through `make_move`, keeping the final game. -/
def applyMoves (g : ChessGame) : List Turn → ChessGame
  | [] => g
  | t :: ts => applyMoves (g.make_move t).1 ts

/-- The errors returned by each `make_move` of a sequence. -/
def applyMovesErrs (g : ChessGame) : List Turn → List (Option TurnError)
  | [] => []
  | t :: ts => (g.make_move t).2 :: applyMovesErrs (g.make_move t).1 ts

/-- The position key used by `make_move`: the first four FEN fields. -/
def positionKey (b : ChessBoard) : List Char :=
  joinSpace ((splitWs b.gen_fen).take 4)

/-- The game after 4 plies of the shuffle. -/
def gRep4 : ChessGame := applyMoves miniGame (shuffleMoves.take 4)

/-- The game after all 8 plies of the shuffle. -/
def gRep8 : ChessGame := applyMoves miniGame shuffleMoves

/-- The bare-kings position: Ke1 vs Ke8, white to move. -/
def kkBoard : ChessBoard :=
  { piece_locs := fun sq =>
      [(60, (⟨.King, true⟩ : Piece)), (4, ⟨.King, false⟩)].lookup sq.val,
    is_white := true,
    castling := ⟨false, false, false, false⟩,
    en_passant := none,
    half_move_clock := 0,
    full_move_number := 1 }

/-- The queen move Qh5, illegal from the start position. -/
def qh5Move : Move :=
  { piece := .Queen, dst := Square.H5, flags := 0, src := none, promotion := none }

/-- Each side has exactly one king (true of every position reachable from the
start; `is_insufficient_material` is only ever invoked on such boards). -/
def oneKingEach (b : ChessBoard) : Prop :=
  ((b.get_player_pieces true).filter (fun e => e.2.piece == PieceType.King)).length = 1
  ∧ ((b.get_player_pieces false).filter (fun e => e.2.piece == PieceType.King)).length = 1

/-- The insufficient-material condition in the words of the claim: king
versus king; king versus king plus one minor; or each side exactly a king and
one other piece, both others bishops on same-coloured squares. -/
def specInsufficientMaterial (b : ChessBoard) : Prop :=
  let wp := b.get_player_pieces true
  let bp := b.get_player_pieces false
  (wp.length = 1 ∧ bp.length = 1)
  ∨ (wp.length = 1 ∧ bp.length = 2 ∧
      ∀ e ∈ bp, e.2.piece = PieceType.King ∨ isMinor e.2.piece = true)
  ∨ (bp.length = 1 ∧ wp.length = 2 ∧
      ∀ e ∈ wp, e.2.piece = PieceType.King ∨ isMinor e.2.piece = true)
  ∨ (wp.length = 2 ∧ bp.length = 2 ∧
      ∃ w ∈ wp, ∃ bl ∈ bp, w.2.piece = PieceType.Bishop ∧ bl.2.piece = PieceType.Bishop ∧
        Square.is_light w.1 = Square.is_light bl.1)

/-! Definitions supporting the FEN round-trip proof. -/

/-- The character `gen_fen` writes for one board cell before run-length
merging: the piece letter or `'1'`. -/
def encCell : Option Piece → Char
  | some pc => pc.fenChar
  | none => '1'

/-- Length of the leading run of empty cells. -/
def leadNones (cells : List (Option Piece)) : Nat :=
  (cells.takeWhile Option.isNone).length

/-- Structural specification of the run-length encoding performed by the
`rleStep` fold: empties collapse into their count digit. -/
def rleSpec : List (Option Piece) → List Char
  | [] => []
  | some p :: rest => p.fenChar :: rleSpec rest
  | none :: rest =>
    Char.ofNat (49 + leadNones rest) :: rleSpec (rest.dropWhile Option.isNone)
termination_by l => l.length
decreasing_by
  all_goals simp only [List.length_cons]
  · omega
  · have h : ∀ (l : List (Option Piece)), (l.dropWhile Option.isNone).length ≤ l.length := by
      intro l
      induction l with
      | nil => simp
      | cons a l ih =>
        by_cases hp : Option.isNone a
        · rw [List.dropWhile_cons_of_pos hp]; exact Nat.le_succ_of_le ih
        · rw [List.dropWhile_cons_of_neg hp]
    exact Nat.lt_succ_of_le (h rest)

/-- The piece-placement overlay built by `parseRankChars`: walks squares and
cells together, inserting the occupied cells. -/
def overlay (f : Square → Option Piece) :
    List Square → List (Option Piece) → (Square → Option Piece)
  | sq :: sqs, some p :: cs => overlay (fun x => if x = sq then some p else f x) sqs cs
  | _ :: sqs, none :: cs => overlay f sqs cs
  | _, _ => f

set_option maxRecDepth 100000

/-! Claim theorems. -/

/-- C1: the claim says a validated pawn move onto the standing en-passant
target removes the passed enemy pawn.  The code recomputes `en_passant`
*before* the capture comparison, so the comparison reads the new value (which
can never equal the destination) and the passed pawn is never removed: after
the validated capture exd6 on `epBoard` (en-passant target d6), the black pawn
is still on d5 and only the capturing pawn moved. -/
theorem c1_en_passant_capture_dead_code :
    epBoard.validate_and_complete_turn
        (.move { epMove with src := some (.line .FileE) }) = .ok (.move epMove)
    ∧ epBoard.en_passant = some Square.D6
    ∧ (epBoard.update_board (.move epMove)).piece_locs Square.D5
        = some ⟨PieceType.Pawn, false⟩
    ∧ (epBoard.update_board (.move epMove)).piece_locs Square.D6
        = some ⟨PieceType.Pawn, true⟩
    ∧ (epBoard.update_board (.move epMove)).piece_locs Square.E5 = none := by
  decide

/-- C2: the claim says the half-move clock is `previous + 1` after a move that
is neither a pawn move nor a capture, and that castling increments it.  The
code tests `get(dst)` *after* inserting the moved piece at `dst`, so the clock
resets to 0 on every `Move` (here: Ng1-f3 from the start, a quiet knight move,
claim expects 1, code gives 0); and for castling the clock is left unchanged
rather than incremented (here: 5 stays 5, claim expects 6).  Both turns are
validated. -/
theorem c2_half_move_clock_resets_on_every_move :
    ChessBoard.startBoard.validate_and_complete_turn (.move nf3Plain) = .ok nf3Turn
    ∧ ChessBoard.startBoard.half_move_clock = 0
    ∧ (ChessBoard.startBoard.update_board nf3Turn).half_move_clock = 0
    ∧ castleBoard.validate_and_complete_turn (.castling .Short 0) = .ok (.castling .Short 0)
    ∧ castleBoard.half_move_clock = 5
    ∧ (castleBoard.update_board (.castling .Short 0)).half_move_clock = 5 := by
  decide

/-- C3: the claim says a piece counts as a disambiguation candidate only if
its self-check-filtered destination set still contains the destination.  The
code pushes the piece whenever its *unfiltered* set contains the destination
(the filtered set is computed but not consulted), so the pinned e5 knight of
`pinBoard` counts alongside the g1 knight and the unambiguous Nf3 is rejected
with `NeedLine` instead of resolving to g1. -/
theorem c3_pinned_piece_enters_candidate_count :
    (pinBoard.potential_moves PieceType.Knight Square.F3).map Prod.fst
        = [Square.E5, Square.G1]
    ∧ pinBoard.causes_check (Turn.new Square.E5 ⟨.Knight, true⟩ Square.F3) true = true
    ∧ pinBoard.causes_check (Turn.new Square.G1 ⟨.Knight, true⟩ Square.F3) true = false
    ∧ pinBoard.validate_and_complete_turn (.move nf3Plain) = .error .NeedLine := by
  decide

/-- C7: the claim says the draw is reported at the third occurrence of a
position key.  `make_move` adds the *pre-move* key to the counter, so the
counter never contains the key of the position just reached: after 8 legal
plies of the knight shuffle the initial key has occurred three times (start,
after 4, after 8) yet its count is 2 and the state is `Continue`; the draw
only appears one ply later. -/
theorem c7_threefold_draw_missed_at_third_occurrence :
    applyMovesErrs miniGame shuffleMoves = List.replicate 8 none
    ∧ positionKey gRep4.board = positionKey miniBoard
    ∧ positionKey gRep8.board = positionKey miniBoard
    ∧ gRep8.position_counter.getCount (positionKey miniBoard) = 2
    ∧ gRep8.game_state = GameState.Continue
    ∧ (gRep8.make_move mvNf3).2 = none
    ∧ (gRep8.make_move mvNf3).1.game_state = GameState.Draw DrawType.ThreefoldRepitition := by
  decide

/-- C10: every error path of `make_move` (validation/disambiguation or flag
enforcement) returns before any field of the game is written, so the game
value is unchanged. -/
theorem c10_error_leaves_game_unchanged (g : ChessGame) (t : Turn) (e : TurnError)
    (h : (g.make_move t).2 = some e) : (g.make_move t).1 = g := by
  unfold ChessGame.make_move at h ⊢
  cases hv : g.board.validate_and_complete_turn t with
  | error e2 => simp [hv]
  | ok ft =>
    simp only [hv] at h ⊢
    by_cases hef : g.enforce_flags
    · simp only [hef, if_true] at h ⊢
      cases hf : g.board.enforce_flags ft with
      | error e2 => simp [hf]
      | ok u => simp [hf] at h
    · simp only [hef, if_false] at h ⊢
      simp at h

/-- Witness for C10 at a concrete input: Qh5 from the start position fails
validation with `NoTarget` and leaves the default game unchanged. -/
theorem c10_witness :
    (ChessGame.default.make_move (.move qh5Move)).2 = some TurnError.NoTarget
    ∧ (ChessGame.default.make_move (.move qh5Move)).1 = ChessGame.default :=
  ⟨by decide,
   c10_error_leaves_game_unchanged ChessGame.default (.move qh5Move) .NoTarget (by decide)⟩

/-- Auxiliary for C8: on a two-piece side containing exactly one king, the
source's minor-piece count test agrees with "the non-king piece is a minor". -/
theorem minor_filter_char (x y : Square × Piece)
    (hk : (List.filter (fun e => e.2.piece == PieceType.King) [x, y]).length = 1) :
    ((List.filter (fun e => isMinor e.2.piece) [x, y]).length = 1
      ↔ ∀ e ∈ [x, y], e.2.piece = PieceType.King ∨ isMinor e.2.piece = true) := by
  rcases x with ⟨xs, xp, xw⟩
  rcases y with ⟨ys, yp, yw⟩
  cases xp <;> cases yp <;> simp_all [isMinor, List.filter_cons]

/-- Auxiliary for C8: on a two-piece side with exactly one king there is at
most one bishop, so `find?` locates any bishop member. -/
theorem unique_bishop_find (x y : Square × Piece)
    (hk : (List.filter (fun e => e.2.piece == PieceType.King) [x, y]).length = 1) :
    ∀ e ∈ [x, y], e.2.piece = PieceType.Bishop →
      List.find? (fun e => e.2.piece == PieceType.Bishop) [x, y] = some e := by
  intro e he hbe
  have hnot2 : ¬(x.2.piece = PieceType.Bishop ∧ y.2.piece = PieceType.Bishop) := by
    rintro ⟨hx, hy⟩
    simp [List.filter_cons, hx, hy] at hk
  rcases List.mem_pair.mp he with rfl | rfl
  · simp [List.find?_cons, hbe]
  · have hx : x.2.piece ≠ PieceType.Bishop := fun hx => hnot2 ⟨hx, hbe⟩
    have hxb : (x.2.piece == PieceType.Bishop) = false := by
      simp [hx]
    simp [List.find?_cons, hxb, hbe]

/-- Auxiliary for C8: the source's nested `find?`-and-compare expression
agrees with "both sides have a bishop and the two stand on same-coloured
squares", on two-piece sides with one king each. -/
theorem bishops_find_char (x y u v : Square × Piece)
    (hw : (List.filter (fun e => e.2.piece == PieceType.King) [x, y]).length = 1)
    (hb : (List.filter (fun e => e.2.piece == PieceType.King) [u, v]).length = 1) :
    ((match List.find? (fun e => e.2.piece == PieceType.Bishop) [x, y] with
      | some w =>
        match List.find? (fun e => e.2.piece == PieceType.Bishop) [u, v] with
        | some bl => Square.is_light bl.1 == Square.is_light w.1
        | none => false
      | none => false) = true
     ↔ ∃ w ∈ [x, y], ∃ bl ∈ [u, v],
         w.2.piece = PieceType.Bishop ∧ bl.2.piece = PieceType.Bishop ∧
         Square.is_light w.1 = Square.is_light bl.1) := by
  cases hfw : List.find? (fun e => e.2.piece == PieceType.Bishop) [x, y] with
  | none =>
    simp only [Bool.false_eq_true, false_iff]
    rintro ⟨w, hwm, bl, hblm, hwb, hblb, heq⟩
    rw [unique_bishop_find x y hw w hwm hwb] at hfw
    exact Option.noConfusion hfw
  | some w =>
    cases hfb : List.find? (fun e => e.2.piece == PieceType.Bishop) [u, v] with
    | none =>
      simp only [Bool.false_eq_true, false_iff]
      rintro ⟨w2, hwm, bl, hblm, hwb, hblb, heq⟩
      rw [unique_bishop_find u v hb bl hblm hblb] at hfb
      exact Option.noConfusion hfb
    | some bl =>
      have hwmem := List.mem_of_find?_eq_some hfw
      have hwp := List.find?_some hfw
      have hblmem := List.mem_of_find?_eq_some hfb
      have hblp := List.find?_some hfb
      rw [beq_iff_eq] at hwp hblp
      simp only [beq_iff_eq]
      constructor
      · intro heq
        exact ⟨w, hwmem, bl, hblmem, hwp, hblp, heq.symm⟩
      · rintro ⟨w2, hwm, bl2, hblm, hwb, hblb, heq⟩
        have e1 := unique_bishop_find x y hw w2 hwm hwb
        rw [hfw] at e1
        have e2 := unique_bishop_find u v hb bl2 hblm hblb
        rw [hfb] at e2
        cases e1; cases e2
        exact heq.symm

/-- Auxiliary for C8: the full boolean test of `is_insufficient_material`,
characterised over any two piece lists carrying exactly one king each. -/
theorem insufficient_bool_char (wp bp : List (Square × Piece))
    (hw : (wp.filter (fun e => e.2.piece == PieceType.King)).length = 1)
    (hb : (bp.filter (fun e => e.2.piece == PieceType.King)).length = 1) :
    (((wp.length == 1 && bp.length == 1)
      || (bp.length == 1 && wp.length == 2 &&
          ((wp.filter (fun e => isMinor e.2.piece)).length == 1))
      || (wp.length == 1 && bp.length == 2 &&
          ((bp.filter (fun e => isMinor e.2.piece)).length == 1))
      || (wp.length == 2 && bp.length == 2 &&
          (match wp.find? (fun e => e.2.piece == PieceType.Bishop) with
           | some w =>
             match bp.find? (fun e => e.2.piece == PieceType.Bishop) with
             | some bl => Square.is_light bl.1 == Square.is_light w.1
             | none => false
           | none => false))) = true)
    ↔ ((wp.length = 1 ∧ bp.length = 1)
      ∨ (wp.length = 1 ∧ bp.length = 2 ∧
          ∀ e ∈ bp, e.2.piece = PieceType.King ∨ isMinor e.2.piece = true)
      ∨ (bp.length = 1 ∧ wp.length = 2 ∧
          ∀ e ∈ wp, e.2.piece = PieceType.King ∨ isMinor e.2.piece = true)
      ∨ (wp.length = 2 ∧ bp.length = 2 ∧
          ∃ w ∈ wp, ∃ bl ∈ bp, w.2.piece = PieceType.Bishop ∧
            bl.2.piece = PieceType.Bishop ∧
            Square.is_light w.1 = Square.is_light bl.1)) := by
  have hminw : wp.length = 2 →
      ((wp.filter (fun e => isMinor e.2.piece)).length = 1
        ↔ ∀ e ∈ wp, e.2.piece = PieceType.King ∨ isMinor e.2.piece = true) := by
    intro h2
    obtain ⟨x, y, hxy⟩ := List.length_eq_two.mp h2
    subst hxy
    exact minor_filter_char x y hw
  have hminb : bp.length = 2 →
      ((bp.filter (fun e => isMinor e.2.piece)).length = 1
        ↔ ∀ e ∈ bp, e.2.piece = PieceType.King ∨ isMinor e.2.piece = true) := by
    intro h2
    obtain ⟨x, y, hxy⟩ := List.length_eq_two.mp h2
    subst hxy
    exact minor_filter_char x y hb
  have hbish : wp.length = 2 → bp.length = 2 →
      ((match wp.find? (fun e => e.2.piece == PieceType.Bishop) with
        | some w =>
          match bp.find? (fun e => e.2.piece == PieceType.Bishop) with
          | some bl => Square.is_light bl.1 == Square.is_light w.1
          | none => false
        | none => false) = true
       ↔ ∃ w ∈ wp, ∃ bl ∈ bp, w.2.piece = PieceType.Bishop ∧
           bl.2.piece = PieceType.Bishop ∧
           Square.is_light w.1 = Square.is_light bl.1) := by
    intro h2 h3
    obtain ⟨x, y, hxy⟩ := List.length_eq_two.mp h2
    obtain ⟨u, v, huv⟩ := List.length_eq_two.mp h3
    subst hxy
    subst huv
    exact bishops_find_char x y u v hw hb
  simp only [Bool.or_eq_true, Bool.and_eq_true, beq_iff_eq]
  constructor
  · rintro (((⟨h1, h2⟩ | ⟨⟨h1, h2⟩, h3⟩) | ⟨⟨h1, h2⟩, h3⟩) | ⟨⟨h1, h2⟩, h3⟩)
    · exact Or.inl ⟨h1, h2⟩
    · exact Or.inr (Or.inr (Or.inl ⟨h1, h2, (hminw h2).mp h3⟩))
    · exact Or.inr (Or.inl ⟨h1, h2, (hminb h2).mp h3⟩)
    · exact Or.inr (Or.inr (Or.inr ⟨h1, h2, (hbish h1 h2).mp h3⟩))
  · rintro (⟨h1, h2⟩ | ⟨h1, h2, h3⟩ | ⟨h1, h2, h3⟩ | ⟨h1, h2, h3⟩)
    · exact Or.inl (Or.inl (Or.inl ⟨h1, h2⟩))
    · exact Or.inl (Or.inr ⟨⟨h1, h2⟩, (hminb h2).mpr h3⟩)
    · exact Or.inl (Or.inl (Or.inr ⟨⟨h1, h2⟩, (hminw h2).mpr h3⟩))
    · exact Or.inr ⟨⟨h1, h2⟩, (hbish h1 h2).mpr h3⟩

/-- C8: `is_insufficient_material` holds, on boards with exactly one king per
side (every reachable position), exactly for: king versus king; king versus
king plus one minor; and king-plus-piece versus king-plus-piece where both
extra pieces are bishops on same-coloured squares.  In particular the
bare-kings position draws through `check_gamestate`. -/
theorem c8_insufficient_material_characterisation :
    (∀ b : ChessBoard, oneKingEach b →
       (b.is_insufficient_material = true ↔ specInsufficientMaterial b))
    ∧ kkBoard.check_gamestate Counter.new = GameState.Draw DrawType.InsufficientMaterial := by
  constructor
  · intro b hk
    exact insufficient_bool_char (b.get_player_pieces true) (b.get_player_pieces false)
      hk.1 hk.2
  · decide

/-- Witness for C8 at the bare-kings board: the hypotheses hold there and the
characterisation applies. -/
theorem c8_witness :
    oneKingEach kkBoard ∧ specInsufficientMaterial kkBoard :=
  ⟨⟨by decide, by decide⟩,
   (c8_insufficient_material_characterisation.1 kkBoard ⟨by decide, by decide⟩).mp (by decide)⟩

/-- C4 counterexample: from the start position the pawn move e3 has exactly
one candidate (the e2 pawn), and the given rank disambiguation `2` matches it
(e2 lies on rank 2), so the claim's single-candidate rule ("accepted when no
disambiguation or a matching one is given") accepts the move; the code instead
rejects every rank hint on a pawn with `NeedFile`. -/
theorem c4_counterexample_matching_rank_hint_on_pawn :
    (ChessBoard.startBoard.potential_moves PieceType.Pawn Square.E3).map Prod.fst
        = [Square.E2]
    ∧ Square.E2 ∈ Line.Rank2.toList
    ∧ ChessBoard.startBoard.validate_and_complete_turn (.move pawnE3Rank2)
        = .error .NeedFile := by
  refine ⟨by decide, by decide, by decide⟩

/-- The complete branch behaviour of `validate_move` by candidate count
(shared helper; see the C4 and C6 theorems). -/
theorem validate_move_branch_structure (b : ChessBoard) (m : Move) :
    (b.potential_moves m.piece m.dst = [] → b.validate_move m = .error .NoTarget)
    ∧ (∀ p, b.potential_moves m.piece m.dst = [p] →
        (m.src = none → m.piece ≠ PieceType.Pawn →
          b.validate_move m = .ok (.square p.1))
        ∧ (m.src = none → Square.file m.dst = Square.file p.1 →
          b.validate_move m = .ok (.square p.1))
        ∧ (m.src = none → m.piece = PieceType.Pawn →
            Square.file m.dst ≠ Square.file p.1 →
          b.validate_move m = .error .NeedFile)
        ∧ (∀ q, m.src = some (.square q) → q = p.1 →
          b.validate_move m = .ok (.square p.1))
        ∧ (∀ q, m.src = some (.square q) → q ≠ p.1 →
          b.validate_move m = .error .MissingAtSquare)
        ∧ (∀ ln, m.src = some (.line ln) → m.piece = PieceType.Pawn →
            ln.is_file = true →
          b.validate_move m = .ok (.square p.1))
        ∧ (∀ ln, m.src = some (.line ln) → m.piece = PieceType.Pawn →
            ln.is_file = false →
          b.validate_move m = .error .NeedFile)
        ∧ (∀ ln, m.src = some (.line ln) → m.piece ≠ PieceType.Pawn →
          b.validate_move m = .error .OverSpecification))
    ∧ (∀ p q, b.potential_moves m.piece m.dst = [p, q] →
        ((∀ ln, m.src ≠ some (.line ln)) → b.validate_move m = .error .NeedLine)
        ∧ (∀ ln, m.src = some (.line ln) →
            (p.1 ∈ ln.toList → q.1 ∈ ln.toList →
              b.validate_move m = .error .BothInLine)
            ∧ (p.1 ∉ ln.toList → q.1 ∉ ln.toList →
              b.validate_move m = .error .MissingInLine)
            ∧ (p.1 ∈ ln.toList → q.1 ∉ ln.toList →
              b.validate_move m = .ok (.square p.1))
            ∧ (p.1 ∉ ln.toList → q.1 ∈ ln.toList →
              b.validate_move m = .ok (.square q.1))))
    ∧ (3 ≤ (b.potential_moves m.piece m.dst).length →
        ((∀ q, m.src ≠ some (.square q)) → b.validate_move m = .error .NeedSquare)
        ∧ (∀ q, m.src = some (.square q) →
            ((∃ e ∈ b.potential_moves m.piece m.dst, e.1 = q) →
              b.validate_move m = .ok (.square q))
            ∧ ((∀ e ∈ b.potential_moves m.piece m.dst, e.1 ≠ q) →
              b.validate_move m = .error .MissingAtSquare))) := by
  refine ⟨?_, ?_, ?_, ?_⟩
  · intro hp
    simp only [ChessBoard.validate_move]
    rw [hp]
  · intro p hp
    refine ⟨?_, ?_, ?_, ?_, ?_, ?_, ?_, ?_⟩
    · intro hs hpp
      simp only [ChessBoard.validate_move]
      rw [hp, hs]
      simp [hpp]
    · intro hs hf
      simp only [ChessBoard.validate_move]
      rw [hp, hs]
      simp [hf]
    · intro hs hpp hf
      simp only [ChessBoard.validate_move]
      rw [hp, hs]
      simp [hpp, hf]
    · intro q hs hq
      simp only [ChessBoard.validate_move]
      rw [hp, hs]
      simp [hq]
    · intro q hs hq
      simp only [ChessBoard.validate_move]
      rw [hp, hs]
      simp [hq]
    · intro ln hs hpp hf
      simp only [ChessBoard.validate_move]
      rw [hp, hs]
      simp [hpp, hf]
    · intro ln hs hpp hf
      simp only [ChessBoard.validate_move]
      rw [hp, hs]
      simp [hpp, hf]
    · intro ln hs hpp
      simp only [ChessBoard.validate_move]
      rw [hp, hs]
      simp [hpp]
  · intro p q hp
    constructor
    · intro hs
      cases hms : m.src with
      | none =>
        simp only [ChessBoard.validate_move]
        rw [hp, hms]
      | some s =>
        cases s with
        | line ln => exact absurd hms (hs ln)
        | square sq =>
          simp only [ChessBoard.validate_move]
          rw [hp, hms]
    · intro ln hs
      refine ⟨?_, ?_, ?_, ?_⟩
      · intro h1 h2
        simp only [ChessBoard.validate_move]
        rw [hp, hs]
        simp [List.filter_cons, h1, h2]
      · intro h1 h2
        simp only [ChessBoard.validate_move]
        rw [hp, hs]
        simp [List.filter_cons, h1, h2]
      · intro h1 h2
        simp only [ChessBoard.validate_move]
        rw [hp, hs]
        simp [List.filter_cons, h1, h2]
      · intro h1 h2
        simp only [ChessBoard.validate_move]
        rw [hp, hs]
        simp [List.filter_cons, h1, h2]
  · intro hlen
    have hne1 : b.potential_moves m.piece m.dst ≠ [] := by
      intro h; rw [h] at hlen; simp at hlen
    obtain ⟨p1, t1, h1⟩ := List.exists_cons_of_ne_nil hne1
    have hne2 : t1 ≠ [] := by
      intro h; rw [h1, h] at hlen; simp at hlen
    obtain ⟨p2, t2, h2⟩ := List.exists_cons_of_ne_nil hne2
    have hne3 : t2 ≠ [] := by
      intro h; rw [h1, h2, h] at hlen; simp at hlen
    obtain ⟨p3, t3, h3⟩ := List.exists_cons_of_ne_nil hne3
    have hshape : b.potential_moves m.piece m.dst = p1 :: p2 :: p3 :: t3 := by
      rw [h1, h2, h3]
    constructor
    · intro hs
      cases hms : m.src with
      | none =>
        simp only [ChessBoard.validate_move]
        rw [hshape, hms]
      | some s =>
        cases s with
        | line ln =>
          simp only [ChessBoard.validate_move]
          rw [hshape, hms]
        | square sq => exact absurd hms (hs sq)
    · intro q hs
      constructor
      · intro hex
        have hany2 : (b.potential_moves m.piece m.dst).any (fun e => e.1 == q) = true := by
          obtain ⟨e, he, heq⟩ := hex
          exact List.any_eq_true.mpr ⟨e, he, by simp [heq]⟩
        simp only [ChessBoard.validate_move]
        rw [hshape, hs]
        rw [hshape] at hany2
        simp only [hany2, if_true]
      · intro hall
        have hany2 : (b.potential_moves m.piece m.dst).any (fun e => e.1 == q) = false := by
          rw [List.any_eq_false]
          intro e he
          simp [hall e he]
        simp only [ChessBoard.validate_move]
        rw [hshape, hs]
        rw [hshape] at hany2
        simp only [hany2, Bool.false_eq_true, if_false]


/-- C4 amended: resolution by candidate count as the code implements it.
0 candidates: no-target.  1 candidate: no hint is accepted unless a pawn
changes file (need-file); an exact square is accepted iff it matches, else
missing-at-square; a line hint on a pawn is accepted exactly when the line is
a file — whether or not it matches the candidate — and is need-file when it
is a rank; a line hint on a non-pawn is over-specification.  2 candidates: a
line hint is mandatory (need-line otherwise); one matching candidate resolves
to it, both matching is both-in-line, neither missing-in-line.  3 or more
candidates: an exact square is mandatory (need-square otherwise), resolving to
it if a candidate sits there and missing-at-square if not. -/
theorem c4_amended_branch_structure (b : ChessBoard) (m : Move) :
    (b.potential_moves m.piece m.dst = [] → b.validate_move m = .error .NoTarget)
    ∧ (∀ p, b.potential_moves m.piece m.dst = [p] →
        (m.src = none → m.piece ≠ PieceType.Pawn →
          b.validate_move m = .ok (.square p.1))
        ∧ (m.src = none → Square.file m.dst = Square.file p.1 →
          b.validate_move m = .ok (.square p.1))
        ∧ (m.src = none → m.piece = PieceType.Pawn →
            Square.file m.dst ≠ Square.file p.1 →
          b.validate_move m = .error .NeedFile)
        ∧ (∀ q, m.src = some (.square q) → q = p.1 →
          b.validate_move m = .ok (.square p.1))
        ∧ (∀ q, m.src = some (.square q) → q ≠ p.1 →
          b.validate_move m = .error .MissingAtSquare)
        ∧ (∀ ln, m.src = some (.line ln) → m.piece = PieceType.Pawn →
            ln.is_file = true →
          b.validate_move m = .ok (.square p.1))
        ∧ (∀ ln, m.src = some (.line ln) → m.piece = PieceType.Pawn →
            ln.is_file = false →
          b.validate_move m = .error .NeedFile)
        ∧ (∀ ln, m.src = some (.line ln) → m.piece ≠ PieceType.Pawn →
          b.validate_move m = .error .OverSpecification))
    ∧ (∀ p q, b.potential_moves m.piece m.dst = [p, q] →
        ((∀ ln, m.src ≠ some (.line ln)) → b.validate_move m = .error .NeedLine)
        ∧ (∀ ln, m.src = some (.line ln) →
            (p.1 ∈ ln.toList → q.1 ∈ ln.toList →
              b.validate_move m = .error .BothInLine)
            ∧ (p.1 ∉ ln.toList → q.1 ∉ ln.toList →
              b.validate_move m = .error .MissingInLine)
            ∧ (p.1 ∈ ln.toList → q.1 ∉ ln.toList →
              b.validate_move m = .ok (.square p.1))
            ∧ (p.1 ∉ ln.toList → q.1 ∈ ln.toList →
              b.validate_move m = .ok (.square q.1))))
    ∧ (3 ≤ (b.potential_moves m.piece m.dst).length →
        ((∀ q, m.src ≠ some (.square q)) → b.validate_move m = .error .NeedSquare)
        ∧ (∀ q, m.src = some (.square q) →
            ((∃ e ∈ b.potential_moves m.piece m.dst, e.1 = q) →
              b.validate_move m = .ok (.square q))
            ∧ ((∀ e ∈ b.potential_moves m.piece m.dst, e.1 ≠ q) →
              b.validate_move m = .error .MissingAtSquare))) :=
  validate_move_branch_structure b m

/-- Witness for the amended C4 theorem at a concrete input: the e3 pawn move
from the start position has the single candidate e2 (with filtered moves e3,
e4), and the rank-hint conjunct applies to give `NeedFile`. -/
theorem c4_amended_witness :
    ChessBoard.startBoard.potential_moves PieceType.Pawn Square.E3
        = [(Square.E2, [Square.E3, Square.E4])]
    ∧ ChessBoard.startBoard.validate_move pawnE3Rank2 = .error .NeedFile :=
  ⟨by decide,
   ((c4_amended_branch_structure ChessBoard.startBoard pawnE3Rank2).2.1
      (Square.E2, [Square.E3, Square.E4]) (by decide)).2.2.2.2.2.2.1
     Line.Rank2 rfl rfl (by decide)⟩

/-- C9: `parse_move` promotion errors are distinct per cause, on otherwise
well-formed inputs (character set passes, not castling, piece letter and
square characters parse): a promotion suffix naming King or Pawn gives the
invalid-target error (regardless of rank); a promotion suffix with any other
target on a destination off ranks 1 and 8 gives cannot-promote; a pawn move
(no piece letter, hence `get_piece` yields Pawn) to rank 1 or 8 without a
suffix gives must-promote. -/
theorem c9_promotion_error_taxonomy :
    ∀ (s : List Char) (p0 : PieceType) (dst : Square) (src : Option Source),
      s.all (fun c => moveCharset.contains c) = true →
      parse_castling s = none →
      get_piece s = .ok p0 →
      get_squares s = .ok (dst, src) →
      ((s.contains '=' = true → (p0 = PieceType.King ∨ p0 = PieceType.Pawn) →
          parse_move s = .error ⟨'=', .PromotionError (.Invalid p0)⟩)
      ∧ (s.contains '=' = true → p0 ≠ PieceType.King → p0 ≠ PieceType.Pawn →
          Square.rank dst ≠ Line.Rank1 → Square.rank dst ≠ Line.Rank8 →
          parse_move s = .error ⟨'=', .PromotionError .Cant⟩)
      ∧ (s.contains '=' = false → p0 = PieceType.Pawn →
          (Square.rank dst = Line.Rank1 ∨ Square.rank dst = Line.Rank8) →
          parse_move s = .error ⟨'=', .PromotionError .Must⟩)) := by
  intro s p0 dst src hcs hcast hgp hgs
  have hcs2 : ∀ c ∈ s, c ∈ moveCharset := by simpa using hcs
  have hni : ¬∃ x ∈ s, x ∉ moveCharset := by
    rintro ⟨x, hx, hnx⟩
    exact hnx (hcs2 x hx)
  refine ⟨?_, ?_, ?_⟩
  · intro hctn hkp
    have hmem : '=' ∈ s := by simpa using hctn
    rcases hkp with rfl | rfl <;>
      simp [parse_move, hni, hcast, hgp, hgs, hmem, verify_move]
  · intro hctn hNK hNP h1 h8
    have hmem : '=' ∈ s := by simpa using hctn
    cases p0 <;> first
      | exact absurd rfl hNK
      | exact absurd rfl hNP
      | (simp only [parse_move, hni, hcast, hgp, hgs, hmem, verify_move]
         cases hr : Square.rank dst <;> simp_all)
  · intro hctn hpp hr18
    subst hpp
    have hmem : '=' ∉ s := by simpa using hctn
    rcases hr18 with hr | hr <;>
      simp [parse_move, hni, hcast, hgp, hgs, hmem, verify_move, hr]

/-- Witness for C9 at concrete inputs: `e4=K` (invalid target), `e4=Q`
(cannot promote), `e8` (must promote). -/
theorem c9_witness :
    parse_move "e4=K".toList = .error ⟨'=', .PromotionError (.Invalid PieceType.King)⟩
    ∧ parse_move "e4=Q".toList = .error ⟨'=', .PromotionError .Cant⟩
    ∧ parse_move "e8".toList = .error ⟨'=', .PromotionError .Must⟩ :=
  ⟨(c9_promotion_error_taxonomy "e4=K".toList .King Square.E4 none (by decide)
      (by decide) (by decide) (by decide)).1 (by decide) (Or.inl rfl),
   (c9_promotion_error_taxonomy "e4=Q".toList .Queen Square.E4 none (by decide)
      (by decide) (by decide) (by decide)).2.1 (by decide) (by decide) (by decide)
      (by decide) (by decide),
   (c9_promotion_error_taxonomy "e8".toList .Pawn Square.E8 none (by decide)
      (by decide) (by decide) (by decide)).2.2 (by decide) rfl (Or.inr (by decide))⟩

/-- Every square's file line is a file. -/
theorem file_is_file : ∀ sq : Square, (Square.file sq).is_file = true := by decide

/-- Every square's rank line is a rank, not a file. -/
theorem rank_not_file : ∀ sq : Square, (Square.rank sq).is_file = false := by decide

/-- Membership in a line's square list is the `onLine` test. -/
theorem mem_toList_iff (sq : Square) (l : Line) :
    sq ∈ l.toList ↔ Square.onLine sq l = true := by
  unfold Line.toList
  by_cases hf : l.is_file
  · simp [hf, List.mem_reverse, List.mem_filter, List.mem_finRange]
  · simp [hf, List.mem_filter, List.mem_finRange]

/-- Lying on a square's file line means having the same file. -/
theorem onLine_file : ∀ x s : Square,
    (Square.onLine x (Square.file s) = true) ↔ Square.file x = Square.file s := by decide

/-- Lying on a square's rank line means having the same rank. -/
theorem onLine_rank : ∀ x s : Square,
    (Square.onLine x (Square.rank s) = true) ↔ Square.rank x = Square.rank s := by decide

/-- A square is determined by its file and rank. -/
theorem square_eq_of_file_rank : ∀ a b : Square,
    Square.file a = Square.file b → Square.rank a = Square.rank b → a = b := by decide

/-- The keys of a square-keyed `filterMap` over a square list form a sublist
of that list. -/
theorem sublist_fst_filterMap {β : Type} (f : Square → Option β) :
    ∀ l : List Square,
      ((l.filterMap (fun sq => (f sq).map (fun pc => (sq, pc)))).map Prod.fst).Sublist l
  | [] => by simp
  | sq :: l => by
    cases hf : f sq with
    | none =>
      simp only [List.filterMap_cons, hf, Option.map_none]
      exact (sublist_fst_filterMap f l).cons _
    | some pc =>
      simp only [List.filterMap_cons, hf, Option.map_some, List.map_cons]
      exact (sublist_fst_filterMap f l).cons₂ _

/-- The candidate squares of `potential_moves` form a sublist of the piece
list keys. -/
theorem potential_moves_fst_sublist (b : ChessBoard) (pt : PieceType) (dst : Square) :
    ((b.potential_moves pt dst).map Prod.fst).Sublist
      ((b.find_pieces ⟨pt, b.is_white⟩).map Prod.fst) := by
  unfold ChessBoard.potential_moves
  induction b.find_pieces ⟨pt, b.is_white⟩ with
  | nil => simp
  | cons x l ih =>
    rw [List.filterMap_cons]
    by_cases hce : (b.gen_moves x.1 x.2).contains dst
    · simp only [hce, if_true, List.map_cons]
      exact ih.cons₂ _
    · simp only [hce, Bool.false_eq_true, if_false]
      exact ih.cons _

/-- No square appears twice among the candidates of `potential_moves`. -/
theorem potential_moves_fst_nodup (b : ChessBoard) (pt : PieceType) (dst : Square) :
    ((b.potential_moves pt dst).map Prod.fst).Nodup := by
  have h1 : ((b.find_pieces ⟨pt, b.is_white⟩).map Prod.fst).Sublist
      (b.pieceList.map Prod.fst) :=
    (List.filter_sublist _).map _
  have h2 : (b.pieceList.map Prod.fst).Sublist (List.finRange 64) :=
    sublist_fst_filterMap b.piece_locs (List.finRange 64)
  exact (((potential_moves_fst_sublist b pt dst).trans h1).trans h2).nodup
    (List.nodup_finRange 64)

/-- C6: for a fully qualified move whose source square is one of the
destination's candidates, `get_minimum_move` (which tries, in order, no
disambiguation, the file hint, the rank hint, and finally falls back to the
fully qualified form) returns a form that re-validates on the same board to
the fully qualified move it was derived from. -/
theorem c6_minimum_move_revalidates (b : ChessBoard) (m : Move) (s : Square)
    (hsrc : m.src = some (.square s))
    (hmem : s ∈ (b.potential_moves m.piece m.dst).map Prod.fst) :
    b.validate_and_complete_turn (b.get_minimum_move (.move m))
      = .ok (.move { m with src := some (.square s) }) := by
  have hgm : b.get_minimum_move (.move m) =
      (List.find? (fun t => (b.validate_and_complete_turn t).isOk)
        [.move { m with src := none },
         .move { m with src := some (.line (Square.file s)) },
         .move { m with src := some (.line (Square.rank s)) }]).getD (.move m) := by
    simp only [ChessBoard.get_minimum_move, hsrc]
  rcases hpm : b.potential_moves m.piece m.dst with _ | ⟨p, _ | ⟨q, _ | ⟨r, tl⟩⟩⟩
  · rw [hpm] at hmem
    simp at hmem
  · -- one candidate: it is s
    rw [hpm] at hmem
    simp only [List.map_cons, List.map_nil, List.mem_singleton] at hmem
    subst hmem
    by_cases hpw : m.piece = PieceType.Pawn ∧ Square.file m.dst ≠ Square.file p.1
    · -- pawn changing file: the bare form needs a file, the file form works
      have hv0 : b.validate_move { m with src := none } = .error .NeedFile :=
        ((validate_move_branch_structure b { m with src := none }).2.1 p hpm).2.2.1
          rfl hpw.1 hpw.2
      have hv1 : b.validate_move { m with src := some (.line (Square.file p.1)) }
          = .ok (.square p.1) :=
        ((validate_move_branch_structure b
            { m with src := some (.line (Square.file p.1)) }).2.1 p hpm).2.2.2.2.2.1
          (Square.file p.1) rfl hpw.1 (file_is_file p.1)
      have hE0 : b.validate_and_complete_turn (.move { m with src := none })
          = .error .NeedFile := by
        simp [ChessBoard.validate_and_complete_turn, hv0]
      have hE1 : b.validate_and_complete_turn
            (.move { m with src := some (.line (Square.file p.1)) })
          = .ok (.move { m with src := some (.square p.1) }) := by
        simp [ChessBoard.validate_and_complete_turn, hv1]
      rw [hgm]
      rw [List.find?_cons_of_neg _ (by simp [hE0, Except.isOk, Except.toBool]),
          List.find?_cons_of_pos _ (by simp [hE1, Except.isOk, Except.toBool])]
      simpa using hE1
    · -- the bare form already validates
      have hv0 : b.validate_move { m with src := none } = .ok (.square p.1) := by
        by_cases hpc : m.piece = PieceType.Pawn
        · have hfe : Square.file m.dst = Square.file p.1 := by
            by_contra hne
            exact hpw ⟨hpc, hne⟩
          exact ((validate_move_branch_structure b { m with src := none }).2.1 p hpm).2.1
            rfl hfe
        · exact ((validate_move_branch_structure b { m with src := none }).2.1 p hpm).1
            rfl hpc
      have hE0 : b.validate_and_complete_turn (.move { m with src := none })
          = .ok (.move { m with src := some (.square p.1) }) := by
        simp [ChessBoard.validate_and_complete_turn, hv0]
      rw [hgm]
      rw [List.find?_cons_of_pos _ (by simp [hE0, Except.isOk, Except.toBool])]
      simpa using hE0
  · -- two candidates
    have hnd : p.1 ≠ q.1 := by
      have := potential_moves_fst_nodup b m.piece m.dst
      rw [hpm] at this
      simp only [List.map_cons, List.map_nil] at this
      exact (List.nodup_cons.mp this).1 ∘ (by intro h; rw [h]; exact List.mem_singleton.mpr rfl)
    rw [hpm] at hmem
    simp only [List.map_cons, List.map_nil, List.mem_cons, List.mem_singleton,
      List.not_mem_nil, or_false] at hmem
    have hv0 : b.validate_move { m with src := none } = .error .NeedLine :=
      ((validate_move_branch_structure b { m with src := none }).2.2.1 p q hpm).1
        (by intro ln h; exact Option.noConfusion h)
    have hE0 : b.validate_and_complete_turn (.move { m with src := none })
        = .error .NeedLine := by
      simp [ChessBoard.validate_and_complete_turn, hv0]
    have hfile := ((validate_move_branch_structure b
        { m with src := some (.line (Square.file s)) }).2.2.1 p q hpm).2
        (Square.file s) rfl
    have hrank := ((validate_move_branch_structure b
        { m with src := some (.line (Square.rank s)) }).2.2.1 p q hpm).2
        (Square.rank s) rfl
    rcases hmem with hps | hqs
    · -- s is the first candidate
      subst hps
      have hpmem : p.1 ∈ (Square.file p.1).toList := by
        rw [mem_toList_iff, onLine_file]
      by_cases hqf : Square.file q.1 = Square.file p.1
      · -- both candidates share the file: the file form is ambiguous,
        -- the rank form resolves
        have hqmem : q.1 ∈ (Square.file p.1).toList := by
          rw [mem_toList_iff, onLine_file]; exact hqf
        have hv1 := hfile.1 hpmem hqmem
        have hE1 : b.validate_and_complete_turn
              (.move { m with src := some (.line (Square.file p.1)) })
            = .error .BothInLine := by
          simp [ChessBoard.validate_and_complete_turn, hv1]
        have hqr : Square.rank q.1 ≠ Square.rank p.1 := by
          intro hr
          exact hnd (square_eq_of_file_rank q.1 p.1 hqf hr).symm
        have hprm : p.1 ∈ (Square.rank p.1).toList := by
          rw [mem_toList_iff, onLine_rank]
        have hqrm : q.1 ∉ (Square.rank p.1).toList := by
          rw [mem_toList_iff, onLine_rank]
          exact fun h => hqr (by simpa using h)
        have hv2 := hrank.2.2.1 hprm hqrm
        have hE2 : b.validate_and_complete_turn
              (.move { m with src := some (.line (Square.rank p.1)) })
            = .ok (.move { m with src := some (.square p.1) }) := by
          simp [ChessBoard.validate_and_complete_turn, hv2]
        rw [hgm]
        rw [List.find?_cons_of_neg _ (by simp [hE0, Except.isOk, Except.toBool]),
            List.find?_cons_of_neg _ (by simp [hE1, Except.isOk, Except.toBool]),
            List.find?_cons_of_pos _ (by simp [hE2, Except.isOk, Except.toBool])]
        simpa using hE2
      · -- the file hint separates the candidates
        have hqmem : q.1 ∉ (Square.file p.1).toList := by
          rw [mem_toList_iff, onLine_file]
          exact fun h => hqf (by simpa using h)
        have hv1 := hfile.2.2.1 hpmem hqmem
        have hE1 : b.validate_and_complete_turn
              (.move { m with src := some (.line (Square.file p.1)) })
            = .ok (.move { m with src := some (.square p.1) }) := by
          simp [ChessBoard.validate_and_complete_turn, hv1]
        rw [hgm]
        rw [List.find?_cons_of_neg _ (by simp [hE0, Except.isOk, Except.toBool]),
            List.find?_cons_of_pos _ (by simp [hE1, Except.isOk, Except.toBool])]
        simpa using hE1
    · -- s is the second candidate
      subst hqs
      have hqmem : q.1 ∈ (Square.file q.1).toList := by
        rw [mem_toList_iff, onLine_file]
      by_cases hpf : Square.file p.1 = Square.file q.1
      · have hpmem : p.1 ∈ (Square.file q.1).toList := by
          rw [mem_toList_iff, onLine_file]; exact hpf
        have hv1 := hfile.1 hpmem hqmem
        have hE1 : b.validate_and_complete_turn
              (.move { m with src := some (.line (Square.file q.1)) })
            = .error .BothInLine := by
          simp [ChessBoard.validate_and_complete_turn, hv1]
        have hpr : Square.rank p.1 ≠ Square.rank q.1 := by
          intro hr
          exact hnd (square_eq_of_file_rank p.1 q.1 hpf hr)
        have hprm : p.1 ∉ (Square.rank q.1).toList := by
          rw [mem_toList_iff, onLine_rank]
          exact fun h => hpr (by simpa using h)
        have hqrm : q.1 ∈ (Square.rank q.1).toList := by
          rw [mem_toList_iff, onLine_rank]
        have hv2 := hrank.2.2.2 hprm hqrm
        have hE2 : b.validate_and_complete_turn
              (.move { m with src := some (.line (Square.rank q.1)) })
            = .ok (.move { m with src := some (.square q.1) }) := by
          simp [ChessBoard.validate_and_complete_turn, hv2]
        rw [hgm]
        rw [List.find?_cons_of_neg _ (by simp [hE0, Except.isOk, Except.toBool]),
            List.find?_cons_of_neg _ (by simp [hE1, Except.isOk, Except.toBool]),
            List.find?_cons_of_pos _ (by simp [hE2, Except.isOk, Except.toBool])]
        simpa using hE2
      · have hpmem : p.1 ∉ (Square.file q.1).toList := by
          rw [mem_toList_iff, onLine_file]
          exact fun h => hpf (by simpa using h)
        have hv1 := hfile.2.2.2 hpmem hqmem
        have hE1 : b.validate_and_complete_turn
              (.move { m with src := some (.line (Square.file q.1)) })
            = .ok (.move { m with src := some (.square q.1) }) := by
          simp [ChessBoard.validate_and_complete_turn, hv1]
        rw [hgm]
        rw [List.find?_cons_of_neg _ (by simp [hE0, Except.isOk, Except.toBool]),
            List.find?_cons_of_pos _ (by simp [hE1, Except.isOk, Except.toBool])]
        simpa using hE1
  · -- three or more candidates: all three abbreviations fail, the fully
    -- qualified fallback validates
    have hlen : 3 ≤ (b.potential_moves m.piece m.dst).length := by
      rw [hpm]; simp
    have hv0 : b.validate_move { m with src := none } = .error .NeedSquare :=
      ((validate_move_branch_structure b { m with src := none }).2.2.2 hlen).1
        (fun q2 h => Option.noConfusion h)
    have hv1 : b.validate_move { m with src := some (.line (Square.file s)) }
        = .error .NeedSquare :=
      ((validate_move_branch_structure b
          { m with src := some (.line (Square.file s)) }).2.2.2 hlen).1
        (fun q2 h => by injection h with h2; exact Source.noConfusion h2)
    have hv2 : b.validate_move { m with src := some (.line (Square.rank s)) }
        = .error .NeedSquare :=
      ((validate_move_branch_structure b
          { m with src := some (.line (Square.rank s)) }).2.2.2 hlen).1
        (fun q2 h => by injection h with h2; exact Source.noConfusion h2)
    have hex : ∃ e ∈ b.potential_moves m.piece m.dst, e.1 = s := by
      obtain ⟨e, he, hes⟩ := List.mem_map.mp hmem
      exact ⟨e, he, hes⟩
    have hvm : b.validate_move m = .ok (.square s) :=
      (((validate_move_branch_structure b m).2.2.2 hlen).2 s hsrc).1 hex
    have hE0 : b.validate_and_complete_turn (.move { m with src := none })
        = .error .NeedSquare := by
      simp [ChessBoard.validate_and_complete_turn, hv0]
    have hE1 : b.validate_and_complete_turn
          (.move { m with src := some (.line (Square.file s)) })
        = .error .NeedSquare := by
      simp [ChessBoard.validate_and_complete_turn, hv1]
    have hE2 : b.validate_and_complete_turn
          (.move { m with src := some (.line (Square.rank s)) })
        = .error .NeedSquare := by
      simp [ChessBoard.validate_and_complete_turn, hv2]
    rw [hgm]
    rw [List.find?_cons_of_neg _ (by simp [hE0, Except.isOk, Except.toBool]),
        List.find?_cons_of_neg _ (by simp [hE1, Except.isOk, Except.toBool]),
        List.find?_cons_of_neg _ (by simp [hE2, Except.isOk, Except.toBool])]
    simp [ChessBoard.validate_and_complete_turn, hvm]

/-- Witness for C6: the fully qualified Ng1-f3 on the start position (g1 is a
candidate for f3) re-validates, through its minimal form, to itself. -/
theorem c6_witness :
    Square.G1 ∈ (ChessBoard.startBoard.potential_moves PieceType.Knight
        Square.F3).map Prod.fst
    ∧ ChessBoard.startBoard.validate_and_complete_turn
        (ChessBoard.startBoard.get_minimum_move nf3Turn) = .ok nf3Turn :=
  ⟨by decide,
   c6_minimum_move_revalidates ChessBoard.startBoard
     { piece := .Knight, dst := Square.F3, flags := 0,
       src := some (.square Square.G1), promotion := none }
     Square.G1 rfl (by decide)⟩

/-! Splitting lemmas for the FEN round trip. -/

/-- `splitWsAux` word step: a whitespace-free word followed by a space is
emitted together with the pending accumulator. -/
theorem splitWsAux_word : ∀ (w cur rest : List Char),
    (∀ c ∈ w, c.isWhitespace = false) → (cur ≠ [] ∨ w ≠ []) →
    splitWsAux (w ++ ' ' :: rest) cur = (cur.reverse ++ w) :: splitWsAux rest []
  | [], cur, rest, _, hne => by
    have hcur : cur ≠ [] := by
      rcases hne with h | h
      · exact h
      · exact absurd rfl h
    simp only [List.nil_append, splitWsAux]
    rw [if_pos (by decide)]
    rw [if_neg (by simpa [List.isEmpty_iff] using hcur)]
    simp
  | c :: w, cur, rest, hws, _ => by
    have hcw : c.isWhitespace = false := hws c (by simp)
    simp only [List.cons_append, splitWsAux, hcw, Bool.false_eq_true, if_false, List.append_eq]
    rw [splitWsAux_word w (c :: cur) rest (fun x hx => hws x (by simp [hx]))
      (Or.inl (by simp))]
    simp

/-- `splitWsAux` final word: a whitespace-free tail is emitted with the
accumulator. -/
theorem splitWsAux_last : ∀ (w cur : List Char),
    (∀ c ∈ w, c.isWhitespace = false) → (cur ≠ [] ∨ w ≠ []) →
    splitWsAux w cur = [cur.reverse ++ w]
  | [], cur, _, hne => by
    have hcur : cur ≠ [] := by
      rcases hne with h | h
      · exact h
      · exact absurd rfl h
    simp only [splitWsAux]
    rw [if_neg (by simpa [List.isEmpty_iff] using hcur)]
    simp
  | c :: w, cur, hws, _ => by
    have hcw : c.isWhitespace = false := hws c (by simp)
    simp only [splitWsAux, hcw, Bool.false_eq_true, if_false]
    rw [splitWsAux_last w (c :: cur) (fun x hx => hws x (by simp [hx]))
      (Or.inl (by simp))]
    simp

/-- Splitting a whitespace-free nonempty word off the front. -/
theorem splitWs_word (w rest : List Char)
    (hws : ∀ c ∈ w, c.isWhitespace = false) (hne : w ≠ []) :
    splitWs (w ++ ' ' :: rest) = w :: splitWs rest := by
  unfold splitWs
  rw [splitWsAux_word w [] rest hws (Or.inr hne)]
  simp

/-- A single whitespace-free nonempty word splits to itself. -/
theorem splitWs_last (w : List Char)
    (hws : ∀ c ∈ w, c.isWhitespace = false) (hne : w ≠ []) :
    splitWs w = [w] := by
  unfold splitWs
  rw [splitWsAux_last w [] hws (Or.inr hne)]
  simp

/-- Splitting a slash-free segment off the front of a `'/'`-separated list. -/
theorem splitSlash_seg : ∀ (a rest : List Char), '/' ∉ a →
    splitSlash (a ++ '/' :: rest) = a :: splitSlash rest
  | [], rest, _ => by simp [splitSlash]
  | c :: a, rest, hns => by
    have hc : ¬(c = '/') := fun h => hns (by simp [h])
    simp only [List.cons_append, splitSlash, hc, if_false, List.append_eq]
    rw [splitSlash_seg a rest (fun h => hns (by simp [h]))]

/-- A slash-free segment splits to itself. -/
theorem splitSlash_last : ∀ (a : List Char), '/' ∉ a → splitSlash a = [a]
  | [], _ => by simp [splitSlash]
  | c :: a, hns => by
    have hc : ¬(c = '/') := fun h => hns (by simp [h])
    simp only [splitSlash, hc, if_false]
    rw [splitSlash_last a (fun h => hns (by simp [h]))]

/-! Decimal digit lemmas for the clock fields. -/

/-- Shifting the accumulator of the digit-value fold. -/
theorem digitsVal_foldl_shift : ∀ (l : List Char) (a : Nat),
    l.foldl (fun a c => a * 10 + (c.toNat - 48)) a
      = a * 10 ^ l.length + l.foldl (fun a c => a * 10 + (c.toNat - 48)) 0
  | [], a => by simp
  | c :: l, a => by
    simp only [List.foldl_cons, List.length_cons]
    rw [digitsVal_foldl_shift l (a * 10 + (c.toNat - 48)),
        digitsVal_foldl_shift l (0 * 10 + (c.toNat - 48))]
    ring

/-- The digit character of `k ≤ 9` has the expected code point. -/
theorem digitChar_toNat (k : Nat) (hk : k ≤ 9) : (Char.ofNat (48 + k)).toNat = 48 + k := by
  interval_cases k <;> decide

/-- The digit character of `k ≤ 9` is an ASCII digit. -/
theorem digitChar_isDigit (k : Nat) (hk : k ≤ 9) : (Char.ofNat (48 + k)).isDigit = true := by
  interval_cases k <;> decide

/-- Value of the digits produced by `natCharsFuel`. -/
theorem digitsVal_natCharsFuel : ∀ (fuel n : Nat) (acc : List Char), n < 10 ^ fuel →
    digitsVal (natCharsFuel fuel n acc) = n * 10 ^ acc.length + digitsVal acc
  | 0, n, acc, hn => by
    have : n = 0 := by simpa using hn
    subst this
    simp [natCharsFuel]
  | fuel + 1, n, acc, hn => by
    by_cases h0 : n = 0
    · subst h0
      simp [natCharsFuel]
    · have hdiv : n / 10 < 10 ^ fuel := by
        rw [Nat.div_lt_iff_lt_mul (by omega)]
        calc n < 10 ^ (fuel + 1) := hn
          _ = 10 ^ fuel * 10 := by ring
      simp only [natCharsFuel, h0, if_false]
      rw [digitsVal_natCharsFuel fuel (n / 10) _ hdiv]
      have hstep : digitsVal (Char.ofNat (48 + n % 10) :: acc)
          = n % 10 * 10 ^ acc.length + digitsVal acc := by
        unfold digitsVal
        simp only [List.foldl_cons]
        rw [digitsVal_foldl_shift acc (0 * 10 + ((Char.ofNat (48 + n % 10)).toNat - 48))]
        rw [digitChar_toNat (n % 10) (by omega)]
        have hmod : 0 * 10 + (48 + n % 10 - 48) = n % 10 := by omega
        rw [hmod]
      rw [hstep, List.length_cons]
      calc n / 10 * 10 ^ (acc.length + 1) + (n % 10 * 10 ^ acc.length + digitsVal acc)
          = 10 * (n / 10) * 10 ^ acc.length + (n % 10 * 10 ^ acc.length + digitsVal acc) := by
            ring
        _ = (10 * (n / 10) + n % 10) * 10 ^ acc.length + digitsVal acc := by ring
        _ = n * 10 ^ acc.length + digitsVal acc := by rw [Nat.div_add_mod]

/-- All characters produced by `natCharsFuel` over a digit accumulator are
digits. -/
theorem natCharsFuel_digits : ∀ (fuel n : Nat) (acc : List Char),
    (∀ c ∈ acc, c.isDigit = true) → ∀ c ∈ natCharsFuel fuel n acc, c.isDigit = true
  | 0, _, acc, hacc => hacc
  | fuel + 1, n, acc, hacc => by
    by_cases h0 : n = 0
    · subst h0
      simpa [natCharsFuel] using hacc
    · simp only [natCharsFuel, h0, if_false]
      refine natCharsFuel_digits fuel (n / 10) _ ?_
      intro c hc
      rcases List.mem_cons.mp hc with rfl | hc2
      · exact digitChar_isDigit (n % 10) (by omega)
      · exact hacc c hc2

/-- `natCharsFuel` never shortens the accumulator. -/
theorem natCharsFuel_len : ∀ (fuel n : Nat) (acc : List Char),
    acc.length ≤ (natCharsFuel fuel n acc).length
  | 0, _, _ => Nat.le_refl _
  | fuel + 1, n, acc => by
    by_cases h0 : n = 0
    · simp [natCharsFuel, h0]
    · simp only [natCharsFuel, h0, if_false]
      calc acc.length ≤ (Char.ofNat (48 + n % 10) :: acc).length := by simp
        _ ≤ _ := natCharsFuel_len fuel (n / 10) _

/-- All characters of `natChars n` are digits. -/
theorem natChars_digits (n : Nat) : ∀ c ∈ natChars n, c.isDigit = true := by
  unfold natChars
  by_cases h0 : n = 0
  · simp [h0]
  · simp only [h0, if_false]
    exact natCharsFuel_digits (n + 1) n [] (by simp)

/-- `natChars n` is nonempty. -/
theorem natChars_ne_nil (n : Nat) : natChars n ≠ [] := by
  unfold natChars
  by_cases h0 : n = 0
  · simp [h0]
  · simp only [h0, if_false, natCharsFuel]
    intro h
    have := natCharsFuel_len n (n / 10) [Char.ofNat (48 + n % 10)]
    rw [h] at this
    simp at this

/-- Parsing inverts `natChars` within the bound. -/
theorem parseNat_natChars (bound n : Nat) (hn : n ≤ bound) :
    parseNatBounded bound (natChars n) = some n := by
  have hdig := natChars_digits n
  have hne := natChars_ne_nil n
  have hvv : digitsVal (natChars n) = n := by
    unfold natChars
    by_cases h0 : n = 0
    · simp [h0, digitsVal]
    · simp only [h0, if_false]
      have hlt : n < 10 ^ (n + 1) :=
        lt_of_lt_of_le (Nat.lt_pow_self (by omega) n)
          (Nat.pow_le_pow_right (by omega) (by omega))
      rw [digitsVal_natCharsFuel (n + 1) n [] hlt]
      simp [digitsVal]
  have hhead : (natChars n).head? ≠ some '+' := by
    cases hc : natChars n with
    | nil => simp
    | cons c l =>
      have : c.isDigit = true := hdig c (by rw [hc]; simp)
      simp only [List.head?]
      intro h
      injection h with h2
      rw [h2] at this
      exact absurd this (by decide)
  have ht : (if (natChars n).head? = some '+' then (natChars n).tail else natChars n)
      = natChars n := if_neg hhead
  have hep : (natChars n).isEmpty = false := by
    simpa [List.isEmpty_iff] using hne
  have hall : (natChars n).all Char.isDigit = true := by
    simpa [List.all_eq_true] using hdig
  unfold parseNatBounded
  simp only [ht, hep, hall, hvv, Bool.false_eq_true, if_false, if_true]
  rw [if_pos hn]

/-! Character-class facts for the FEN round trip. -/

/-- FEN piece letters are not digits. -/
theorem fenChar_not_digit (p : Piece) : (Piece.fenChar p).isDigit = false := by
  rcases p with ⟨pt, w⟩
  cases pt <;> cases w <;> decide

/-- FEN piece letters are not `'/'`. -/
theorem fenChar_ne_slash (p : Piece) : Piece.fenChar p ≠ '/' := by
  rcases p with ⟨pt, w⟩
  cases pt <;> cases w <;> decide

/-- FEN piece letters are not whitespace. -/
theorem fenChar_not_ws (p : Piece) : (Piece.fenChar p).isWhitespace = false := by
  rcases p with ⟨pt, w⟩
  cases pt <;> cases w <;> decide

/-- Parsing inverts the FEN piece letter: uppercasing recovers the piece type
and the case recovers the colour. -/
theorem fenChar_parse (p : Piece) :
    PieceType.tryFromChar (Piece.fenChar p).toUpper = some p.piece
      ∧ (Piece.fenChar p).isUpper = p.is_white := by
  rcases p with ⟨pt, w⟩
  cases pt <;> cases w <;> exact ⟨by decide, by decide⟩

/-- Empty-run digits `'1'..'8'` are digits. -/
theorem runDigit_isDigit (j : Nat) (hj : j ≤ 7) :
    (Char.ofNat (49 + j)).isDigit = true := by
  interval_cases j <;> decide

/-- Empty-run digits are not `'/'`. -/
theorem runDigit_ne_slash (j : Nat) (hj : j ≤ 7) : Char.ofNat (49 + j) ≠ '/' := by
  interval_cases j <;> decide

/-- Empty-run digits are not whitespace. -/
theorem runDigit_not_ws (j : Nat) (hj : j ≤ 7) :
    (Char.ofNat (49 + j)).isWhitespace = false := by
  interval_cases j <;> decide

/-- `to_digit` on an empty-run digit. -/
theorem charToDigit_runDigit (j : Nat) (hj : j ≤ 7) :
    charToDigit (Char.ofNat (49 + j)) = some (1 + j) := by
  interval_cases j <;> decide

/-! Facts about leading runs of empty cells. -/

/-- The leading-empties count is bounded by the length. -/
theorem leadNones_le : ∀ (l : List (Option Piece)), leadNones l ≤ l.length
  | [] => by simp [leadNones]
  | a :: l => by
    by_cases ha : Option.isNone a
    · simp only [leadNones, List.takeWhile_cons_of_pos ha, List.length_cons]
      exact Nat.succ_le_succ (leadNones_le l)
    · simp [leadNones, List.takeWhile_cons_of_neg ha]

/-- Dropping leading empties does not lengthen the list. -/
theorem dropNones_le : ∀ (l : List (Option Piece)),
    (l.dropWhile Option.isNone).length ≤ l.length
  | [] => by simp
  | a :: l => by
    by_cases ha : Option.isNone a
    · rw [List.dropWhile_cons_of_pos ha]
      exact Nat.le_succ_of_le (dropNones_le l)
    · rw [List.dropWhile_cons_of_neg ha]

/-- The leading empties are literally a block of `none`s. -/
theorem takeNones_eq_replicate (l : List (Option Piece)) :
    l.takeWhile Option.isNone = List.replicate (leadNones l) none := by
  have hmem : ∀ x ∈ l.takeWhile Option.isNone, x = none := by
    intro x hx
    have := List.mem_takeWhile_imp hx
    exact Option.isNone_iff_eq_none.mp this
  unfold leadNones
  exact List.eq_replicate_of_mem hmem

/-- Dropping the leading empties plus the taken block restores the list. -/
theorem replicate_append_dropNones (l : List (Option Piece)) :
    List.replicate (leadNones l) none ++ l.dropWhile Option.isNone = l := by
  rw [← takeNones_eq_replicate]
  exact List.takeWhile_append_dropWhile _ _

/-- After dropping leading empties the head, if any, is occupied. -/
theorem dropNones_head : ∀ (l : List (Option Piece)),
    (l.dropWhile Option.isNone).head? ≠ some none
  | [] => by simp
  | a :: l => by
    by_cases ha : Option.isNone a
    · rw [List.dropWhile_cons_of_pos ha]
      exact dropNones_head l
    · rw [List.dropWhile_cons_of_neg ha]
      simp only [List.head?]
      intro h
      injection h with h2
      rw [h2] at ha
      exact ha rfl

/-! The run-length encoding fold computes `rleSpec`. -/

/-- Characters of a `rleSpec` encoding of at most 8 cells are never
whitespace and never `'/'`. -/
theorem rleSpec_chars : ∀ (cells : List (Option Piece)), cells.length ≤ 8 →
    ∀ c ∈ rleSpec cells, c.isWhitespace = false ∧ c ≠ '/'
  | [], _, c, hc => by simp [rleSpec] at hc
  | some p :: rest, hlen, c, hc => by
    rw [rleSpec] at hc
    rcases List.mem_cons.mp hc with rfl | hc2
    · exact ⟨fenChar_not_ws p, fenChar_ne_slash p⟩
    · exact rleSpec_chars rest (by simp at hlen; omega) c hc2
  | none :: rest, hlen, c, hc => by
    rw [rleSpec] at hc
    have hj : leadNones rest ≤ 7 := by
      have h1 := leadNones_le rest
      simp at hlen
      omega
    rcases List.mem_cons.mp hc with rfl | hc2
    · exact ⟨runDigit_not_ws _ hj, runDigit_ne_slash _ hj⟩
    · refine rleSpec_chars (rest.dropWhile Option.isNone) ?_ c hc2
      have := dropNones_le rest
      simp at hlen
      omega
termination_by cells => cells.length
decreasing_by
  · simp only [List.length_cons]; omega
  · simp only [List.length_cons]
    exact Nat.lt_succ_of_le (dropNones_le rest)

/-- `rleSpec` of a nonempty rank is nonempty. -/
theorem rleSpec_ne_nil : ∀ (cells : List (Option Piece)), cells ≠ [] →
    rleSpec cells ≠ []
  | [], h => absurd rfl h
  | some p :: rest, _ => by rw [rleSpec]; simp
  | none :: rest, _ => by rw [rleSpec]; simp

/-- A run of `k` + the leading empties merges into a single digit under the
`rleStep` fold. -/
theorem rle_digit_run : ∀ (rest : List (Option Piece)) (acc : List Char) (k : Nat),
    1 ≤ k → k + leadNones rest ≤ 8 →
    (rest.map encCell).foldl rleStep (acc ++ [Char.ofNat (48 + k)])
      = ((rest.dropWhile Option.isNone).map encCell).foldl rleStep
          (acc ++ [Char.ofNat (48 + (k + leadNones rest))])
  | [], acc, k, _, _ => by simp [leadNones]
  | some p :: rest, acc, k, _, _ => by
    have h1 : Option.isNone (some p : Option Piece) = false := rfl
    have h2 : leadNones (some p :: rest) = 0 := by
      simp [leadNones, List.takeWhile_cons_of_neg, h1]
    rw [h2, List.dropWhile_cons_of_neg (by simp [h1]), Nat.add_zero]
  | none :: rest, acc, k, hk, hbound => by
    have hnone : Option.isNone (none : Option Piece) = true := rfl
    have hlead : leadNones (none :: rest) = 1 + leadNones rest := by
      simp only [leadNones, List.takeWhile_cons_of_pos hnone, List.length_cons]
      omega
    rw [hlead] at hbound ⊢
    have hk8 : k ≤ 8 := by omega
    have hstep : rleStep (acc ++ [Char.ofNat (48 + k)]) (encCell none)
        = acc ++ [Char.ofNat (48 + (k + 1))] := by
      show rleStep (acc ++ [Char.ofNat (48 + k)]) '1' = _
      unfold rleStep
      rw [List.getLast?_concat]
      simp only []
      rw [if_pos]
      · rw [List.dropLast_concat]
        rw [digitChar_toNat k (by omega)]
        have : 48 + k + 1 = 48 + (k + 1) := by omega
        rw [this]
      · rw [digitChar_isDigit k (by omega)]
        decide
    rw [List.map_cons, List.foldl_cons, hstep]
    rw [rle_digit_run rest acc (k + 1) (by omega) (by omega)]
    rw [List.dropWhile_cons_of_pos hnone]
    have : k + 1 + leadNones rest = k + (1 + leadNones rest) := by omega
    rw [this]

/-- The `rleStep` fold over the cell characters computes `rleSpec`, provided
the accumulator cannot merge with the first character. -/
theorem rle_fold_eq_spec : ∀ (cells : List (Option Piece)) (acc : List Char),
    cells.length ≤ 8 →
    (cells.head? = some none → acc.getLast?.all (fun c => !c.isDigit) = true) →
    (cells.map encCell).foldl rleStep acc = acc ++ rleSpec cells
  | [], acc, _, _ => by simp [rleSpec]
  | some p :: rest, acc, hlen, _ => by
    have hstep : rleStep acc (encCell (some p)) = acc ++ [Piece.fenChar p] := by
      show rleStep acc (Piece.fenChar p) = _
      cases hl : acc.getLast? with
      | none => simp [rleStep, hl]
      | some lastc => simp [rleStep, hl, fenChar_not_digit]
    rw [List.map_cons, List.foldl_cons, hstep]
    rw [rle_fold_eq_spec rest (acc ++ [Piece.fenChar p]) (by simp at hlen; omega) ?_]
    · rw [rleSpec]
      simp
    · intro _
      rw [List.getLast?_concat]
      simp only [Option.all_some]
      rw [fenChar_not_digit p]
      rfl
  | none :: rest, acc, hlen, hinv => by
    have hnone : Option.isNone (none : Option Piece) = true := rfl
    have h49 : Char.ofNat (48 + 1) = '1' := by decide
    have hstep : rleStep acc (encCell none) = acc ++ [Char.ofNat (48 + 1)] := by
      rw [h49]
      show rleStep acc '1' = acc ++ ['1']
      cases hl : acc.getLast? with
      | none => simp [rleStep, hl]
      | some lastc =>
        have hinv2 := hinv rfl
        rw [hl] at hinv2
        simp only [Option.all_some] at hinv2
        have hld : lastc.isDigit = false := by
          cases hld2 : lastc.isDigit
          · rfl
          · rw [hld2] at hinv2; exact absurd hinv2 (by decide)
        simp [rleStep, hl, hld]
    rw [List.map_cons, List.foldl_cons, hstep]
    have hj : leadNones rest ≤ 7 := by
      have h1 := leadNones_le rest
      simp at hlen
      omega
    rw [rle_digit_run rest acc 1 (by omega) (by omega)]
    rw [rle_fold_eq_spec (rest.dropWhile Option.isNone)
        (acc ++ [Char.ofNat (48 + (1 + leadNones rest))]) ?_ ?_]
    · rw [rleSpec]
      have : 48 + (1 + leadNones rest) = 49 + leadNones rest := by omega
      rw [this]
      simp
    · have := dropNones_le rest
      simp at hlen
      omega
    · intro hh
      exact absurd hh (dropNones_head rest)
termination_by cells => cells.length
decreasing_by
  · simp only [List.length_cons]; omega
  · simp only [List.length_cons]
    exact Nat.lt_succ_of_le (dropNones_le rest)

/-- A rank string of `gen_fen` is the `rleSpec` encoding of the rank's
cells. -/
theorem rankChars_eq_rleSpec (b : ChessBoard) (r : Line)
    (h : (Line.toList r).length ≤ 8) :
    ChessBoard.rankChars b r = rleSpec ((Line.toList r).map (ChessBoard.get b)) := by
  unfold ChessBoard.rankChars
  have hmap : (Line.toList r).map (fun loc =>
      match ChessBoard.get b loc with
      | some pc => Piece.fenChar pc
      | none => '1') = ((Line.toList r).map (ChessBoard.get b)).map encCell := by
    rw [List.map_map]
    rfl
  rw [hmap]
  rw [rle_fold_eq_spec _ [] (by simpa using h) (by simp)]
  simp

/-! Decoding a `rleSpec` rank and the overlay algebra. -/

/-- Overlaying no cells is the identity. -/
theorem overlay_nil (f : Square → Option Piece) : ∀ (sqs : List Square),
    overlay f sqs [] = f
  | [] => rfl
  | _ :: _ => rfl

/-- Leading empty cells just skip squares. -/
theorem overlay_skip (f : Square → Option Piece) : ∀ (j : Nat) (sqs : List Square)
    (cells : List (Option Piece)), j ≤ sqs.length →
    overlay f sqs (List.replicate j none ++ cells) = overlay f (sqs.drop j) cells
  | 0, sqs, cells, _ => by simp
  | j + 1, [], cells, h => by simp at h
  | j + 1, sq :: sqs, cells, h => by
    rw [List.replicate_succ, List.cons_append]
    show overlay f sqs (List.replicate j none ++ cells) = _
    rw [overlay_skip f j sqs cells (by simpa using h)]
    rfl

/-- Decoding a `rleSpec` rank: `parseRankChars` rebuilds the overlay of the
encoded cells, consumes exactly that many squares, and counts them. -/
theorem parse_rleSpec : ∀ (cells : List (Option Piece)) (sqs : List Square)
    (f : Square → Option Piece) (count : Nat),
    cells.length ≤ 8 → cells.length ≤ sqs.length →
    parseRankChars (rleSpec cells) sqs f count
      = .ok (overlay f sqs cells, sqs.drop cells.length, count + cells.length)
  | [], sqs, f, count, _, _ => by
    rw [rleSpec]
    simp [parseRankChars, overlay_nil]
  | some p :: rest, sqs, f, count, hlen, hsq => by
    cases sqs with
    | nil => simp at hsq
    | cons sq sqs2 =>
      rw [rleSpec]
      simp only [parseRankChars]
      have hcd : charToDigit (Piece.fenChar p) = none := by
        unfold charToDigit
        rw [fenChar_not_digit p]
        rfl
      rw [hcd]
      simp only []
      rw [(fenChar_parse p).1, (fenChar_parse p).2]
      simp only []
      rw [parse_rleSpec rest sqs2
          (fun x => if x = sq then some ⟨p.piece, p.is_white⟩ else f x) (count + 1)
          (by simp at hlen; omega) (by simpa using hsq)]
      simp only [List.length_cons, List.drop_succ_cons]
      have hcnt : count + 1 + rest.length = count + (rest.length + 1) := by omega
      rw [hcnt]
      rfl
  | none :: rest, sqs, f, count, hlen, hsq => by
    have hj : leadNones rest ≤ 7 := by
      have h1 := leadNones_le rest
      simp at hlen
      omega
    have hrl : leadNones rest + (rest.dropWhile Option.isNone).length = rest.length := by
      have h := congrArg List.length (replicate_append_dropNones rest)
      simpa using h
    cases sqs with
    | nil => simp at hsq
    | cons sq sqs2 =>
      have hsq2 : rest.length ≤ sqs2.length := by simpa using hsq
      have hlen2 : rest.length + 1 ≤ 8 := by simpa using hlen
      rw [rleSpec]
      simp only [parseRankChars]
      rw [charToDigit_runDigit _ hj]
      simp only []
      rw [parse_rleSpec (rest.dropWhile Option.isNone)
          ((sq :: sqs2).drop (1 + leadNones rest)) f (count + (1 + leadNones rest))
          (by omega) ?_]
      · have hd1 : (sq :: sqs2).drop (1 + leadNones rest) = sqs2.drop (leadNones rest) := by
          rw [show 1 + leadNones rest = leadNones rest + 1 from by omega]
          rw [List.drop_succ_cons]
        have hov : overlay f (sq :: sqs2) (none :: rest)
            = overlay f (sqs2.drop (leadNones rest)) (rest.dropWhile Option.isNone) := by
          show overlay f sqs2 rest = _
          conv_lhs => rw [← replicate_append_dropNones rest]
          exact overlay_skip f (leadNones rest) sqs2 _ (by omega)
        rw [hd1, hov]
        have hd2 : (sqs2.drop (leadNones rest)).drop (rest.dropWhile Option.isNone).length
            = sqs2.drop rest.length := by
          rw [List.drop_drop, hrl]
        rw [hd2]
        simp only [List.length_cons, List.drop_succ_cons]
        have hcnt : count + (1 + leadNones rest) + (rest.dropWhile Option.isNone).length
            = count + (rest.length + 1) := by omega
        rw [hcnt]
      · simp only [List.length_drop, List.length_cons]
        omega
termination_by cells => cells.length
decreasing_by
  · simp only [List.length_cons]; omega
  · simp only [List.length_cons]
    exact Nat.lt_succ_of_le (dropNones_le rest)

/-- One rank step of `parseRanks` on a well-formed rank of 8 cells. -/
theorem parseRanks_step (cells : List (Option Piece)) (rss : List (List Char))
    (sqs : List Square) (f : Square → Option Piece)
    (h8 : cells.length = 8) (hsq : 8 ≤ sqs.length) :
    parseRanks (rleSpec cells :: rss) sqs f
      = parseRanks rss (sqs.drop 8) (overlay f sqs cells) := by
  simp only [parseRanks]
  rw [parse_rleSpec cells sqs f 0 (by omega) (by omega)]
  simp only [h8]
  rw [if_neg (by omega)]

/-- Squares outside the walked segment are untouched by the overlay. -/
theorem overlay_outside : ∀ (sqs : List Square) (cells : List (Option Piece))
    (f : Square → Option Piece) (x : Square), x ∉ sqs →
    overlay f sqs cells x = f x
  | [], cells, f, x, _ => by cases cells <;> rfl
  | _ :: _, [], _, _, _ => rfl
  | sq :: sqs, some p :: cs, f, x, hx => by
    show overlay (fun y => if y = sq then some p else f y) sqs cs x = f x
    rw [overlay_outside sqs cs _ x (fun h => hx (List.mem_cons_of_mem _ h))]
    rw [if_neg (fun h => hx (by rw [h]; exact List.mem_cons_self _ _))]
  | sq :: sqs, none :: cs, f, x, hx => by
    show overlay f sqs cs x = f x
    exact overlay_outside sqs cs f x (fun h => hx (List.mem_cons_of_mem _ h))

/-- Overlay splits along an append of matching lengths. -/
theorem overlay_append : ∀ (s1 : List Square) (c1 : List (Option Piece))
    (s2 : List Square) (c2 : List (Option Piece)) (f : Square → Option Piece),
    s1.length = c1.length →
    overlay f (s1 ++ s2) (c1 ++ c2) = overlay (overlay f s1 c1) s2 c2
  | [], [], s2, c2, f, _ => rfl
  | [], _ :: _, _, _, _, h => by simp at h
  | _ :: _, [], _, _, _, h => by simp at h
  | sq :: s1, some p :: c1, s2, c2, f, h => by
    show overlay _ (s1 ++ s2) (c1 ++ c2) = _
    rw [overlay_append s1 c1 s2 c2 _ (by simpa using h)]
    rfl
  | sq :: s1, none :: c1, s2, c2, f, h => by
    show overlay f (s1 ++ s2) (c1 ++ c2) = _
    rw [overlay_append s1 c1 s2 c2 f (by simpa using h)]
    rfl

/-- Overlay never reads past its cells: appending further squares is
irrelevant. -/
theorem overlay_stop : ∀ (sqs : List Square) (cells : List (Option Piece))
    (rest : List Square) (f : Square → Option Piece), cells.length ≤ sqs.length →
    overlay f (sqs ++ rest) cells = overlay f sqs cells
  | sqs, [], rest, f, _ => by rw [overlay_nil, overlay_nil]
  | [], _ :: _, _, _, h => by simp at h
  | sq :: sqs, some p :: cs, rest, f, h => by
    show overlay _ (sqs ++ rest) cs = _
    rw [overlay_stop sqs cs rest _ (by simpa using h)]
    rfl
  | sq :: sqs, none :: cs, rest, f, h => by
    show overlay f (sqs ++ rest) cs = _
    rw [overlay_stop sqs cs rest f (by simpa using h)]
    rfl

/-- Overlaying a segment with its own cell readings evaluates pointwise. -/
theorem overlay_full : ∀ (seg : List Square) (g f : Square → Option Piece)
    (x : Square), seg.Nodup → x ∈ seg →
    overlay f seg (seg.map g) x = if (g x).isSome then g x else f x
  | [], _, _, x, _, hx => absurd hx (List.not_mem_nil x)
  | sq :: seg, g, f, x, hnd, hx => by
    rw [List.map_cons]
    have hnd1 : sq ∉ seg := (List.nodup_cons.mp hnd).1
    have hnd2 : seg.Nodup := (List.nodup_cons.mp hnd).2
    cases hgsq : g sq with
    | some p =>
      show overlay (fun y => if y = sq then some p else f y) seg (seg.map g) x = _
      by_cases hxs : x = sq
      · subst hxs
        rw [overlay_outside seg (seg.map g) _ x hnd1]
        rw [if_pos rfl, hgsq]
        rfl
      · have hx2 : x ∈ seg := by
          rcases List.mem_cons.mp hx with h | h
          · exact absurd h hxs
          · exact h
        rw [overlay_full seg g _ x hnd2 hx2]
        rw [if_neg hxs]
    | none =>
      show overlay f seg (seg.map g) x = _
      by_cases hxs : x = sq
      · subst hxs
        rw [overlay_outside seg (seg.map g) f x hnd1]
        rw [hgsq]
        rfl
      · have hx2 : x ∈ seg := by
          rcases List.mem_cons.mp hx with h | h
          · exact absurd h hxs
          · exact h
        exact overlay_full seg g f x hnd2 hx2

/-! Field-level round trips for the FEN string. -/

/-- The castling field parses back to the rights that printed it. -/
theorem parseCastling_fenChars (cr : CastlingRights) :
    parseCastlingField (CastlingRights.fenChars cr) = .ok cr := by
  rcases cr with ⟨a, b, c, d⟩
  cases a <;> cases b <;> cases c <;> cases d <;> decide

/-- The castling field has no whitespace. -/
theorem fenChars_castling_not_ws (cr : CastlingRights) :
    ∀ c ∈ CastlingRights.fenChars cr, c.isWhitespace = false := by
  rcases cr with ⟨a, b, c, d⟩
  cases a <;> cases b <;> cases c <;> cases d <;> decide

/-- The castling field is nonempty. -/
theorem fenChars_castling_ne_nil (cr : CastlingRights) :
    CastlingRights.fenChars cr ≠ [] := by
  rcases cr with ⟨a, b, c, d⟩
  cases a <;> cases b <;> cases c <;> cases d <;> decide

/-- The en-passant field parses back to the optional square that printed
it. -/
theorem parseEp_round (o : Option Square) :
    parseEnPassantField (match o with
      | some ep => Square.chars ep
      | none => ['-']) = .ok o := by
  cases o with
  | none => decide
  | some ep =>
    show parseEnPassantField (Square.chars ep) = .ok (some ep)
    revert ep
    decide

/-- The en-passant field has no whitespace. -/
theorem epChars_not_ws (o : Option Square) :
    ∀ c ∈ ((match o with
      | some ep => Square.chars ep
      | none => ['-']) : List Char), c.isWhitespace = false := by
  cases o with
  | none => decide
  | some ep =>
    show ∀ c ∈ Square.chars ep, c.isWhitespace = false
    revert ep
    decide

/-- The en-passant field is nonempty. -/
theorem epChars_ne_nil (o : Option Square) :
    (match o with
      | some ep => Square.chars ep
      | none => ['-']) ≠ [] := by
  cases o with
  | none => decide
  | some ep =>
    show Square.chars ep ≠ []
    revert ep
    decide

/-- Digit characters are not whitespace. -/
theorem digitChar_not_ws (k : Nat) (hk : k ≤ 9) :
    (Char.ofNat (48 + k)).isWhitespace = false := by
  interval_cases k <;> decide

/-- Characters produced by `natCharsFuel` over a whitespace-free accumulator
are whitespace-free. -/
theorem natCharsFuel_not_ws : ∀ (fuel n : Nat) (acc : List Char),
    (∀ c ∈ acc, c.isWhitespace = false) →
    ∀ c ∈ natCharsFuel fuel n acc, c.isWhitespace = false
  | 0, _, acc, hacc => hacc
  | fuel + 1, n, acc, hacc => by
    by_cases h0 : n = 0
    · subst h0
      simpa [natCharsFuel] using hacc
    · simp only [natCharsFuel, h0, if_false]
      refine natCharsFuel_not_ws fuel (n / 10) _ ?_
      intro c hc
      rcases List.mem_cons.mp hc with rfl | hc2
      · exact digitChar_not_ws (n % 10) (by omega)
      · exact hacc c hc2

/-- `natChars` is whitespace-free. -/
theorem natChars_not_ws (n : Nat) : ∀ c ∈ natChars n, c.isWhitespace = false := by
  unfold natChars
  by_cases h0 : n = 0
  · simp [h0]
  · simp only [h0, if_false]
    exact natCharsFuel_not_ws (n + 1) n [] (by simp)

/-! The board field: rank strings, their join, and its split. -/

/-- A rank string of 8 cells is whitespace- and slash-free and nonempty. -/
theorem rank_string_facts (b : ChessBoard) (r : Line)
    (h8 : (Line.toList r).length = 8) :
    (∀ c ∈ ChessBoard.rankChars b r, c.isWhitespace = false ∧ c ≠ '/')
      ∧ ChessBoard.rankChars b r ≠ [] := by
  rw [rankChars_eq_rleSpec b r (by omega)]
  constructor
  · intro c hc
    exact rleSpec_chars _ (by simp [h8]) c hc
  · apply rleSpec_ne_nil
    intro hn
    have := congrArg List.length hn
    simp [h8] at this

/-- Joining whitespace-free rank strings is whitespace-free. -/
theorem joinSlash_not_ws : ∀ (rs : List (List Char)),
    (∀ r ∈ rs, ∀ c ∈ r, c.isWhitespace = false) →
    ∀ c ∈ joinSlash rs, c.isWhitespace = false
  | [], _, c, hc => by simp [joinSlash] at hc
  | [r], h, c, hc => by
    rw [joinSlash] at hc
    exact h r (by simp) c hc
  | r :: r2 :: rs, h, c, hc => by
    have hc0 : c ∈ r ++ '/' :: joinSlash (r2 :: rs) := hc
    rcases List.mem_append.mp hc0 with hc1 | hc2
    · exact h r (by simp) c hc1
    · rcases List.mem_cons.mp hc2 with rfl | hc3
      · decide
      · exact joinSlash_not_ws (r2 :: rs) (fun x hx => h x (List.mem_cons_of_mem _ hx)) c hc3

/-- Joining a nonempty first rank string is nonempty. -/
theorem joinSlash_ne_nil (r : List Char) (rs : List (List Char)) (h : r ≠ []) :
    joinSlash (r :: rs) ≠ [] := by
  cases rs with
  | nil => simpa [joinSlash] using h
  | cons r2 rs2 =>
    show r ++ '/' :: joinSlash (r2 :: rs2) ≠ []
    simp

/-- Splitting on `'/'` undoes joining slash-free segments. -/
theorem splitSlash_joinSlash : ∀ (rs : List (List Char)), rs ≠ [] →
    (∀ r ∈ rs, '/' ∉ r) → splitSlash (joinSlash rs) = rs
  | [], h, _ => absurd rfl h
  | [r], _, hns => by
    rw [joinSlash]
    exact splitSlash_last r (hns r (by simp))
  | r :: r2 :: rs, _, hns => by
    show splitSlash (r ++ '/' :: joinSlash (r2 :: rs)) = r :: r2 :: rs
    rw [splitSlash_seg r _ (hns r (by simp))]
    rw [splitSlash_joinSlash (r2 :: rs) (by simp)
      (fun x hx => hns x (List.mem_cons_of_mem _ hx))]

/-- `parseRanks` over the `rleSpec` encodings of 8-square segments rebuilds
the overlay of the concatenated segments and leaves the remaining squares. -/
theorem parseRanks_segments : ∀ (segs : List (List Square)) (rest : List Square)
    (g f : Square → Option Piece), (∀ s ∈ segs, s.length = 8) →
    parseRanks (segs.map (fun s => rleSpec (s.map g))) (segs.flatten ++ rest) f
      = .ok (overlay f segs.flatten (segs.flatten.map g), rest)
  | [], rest, g, f, _ => by
    simp only [List.map_nil, List.flatten_nil, List.nil_append, parseRanks]
    rw [overlay_nil]
  | s :: segs, rest, g, f, h8 => by
    have hs8 : s.length = 8 := h8 s (by simp)
    simp only [List.map_cons, List.flatten_cons]
    rw [List.append_assoc]
    rw [parseRanks_step (s.map g) _ _ f (by simp [hs8])
      (by simp [List.length_append, hs8])]
    have hdrop : (s ++ (segs.flatten ++ rest)).drop 8 = segs.flatten ++ rest := by
      rw [← hs8, List.drop_left]
    have hov : overlay f (s ++ (segs.flatten ++ rest)) (s.map g)
        = overlay f s (s.map g) := by
      rw [overlay_stop s (s.map g) _ f (by simp)]
    rw [hdrop, hov]
    rw [parseRanks_segments segs rest g _ (fun x hx => h8 x (List.mem_cons_of_mem _ hx))]
    rw [List.map_append]
    rw [overlay_append s (s.map g) segs.flatten (segs.flatten.map g) f (by simp)]

/-- C5: parsing the FEN string generated from a board whose clocks fit the
source's `u8`/`u16` counters reproduces the board exactly — piece placement,
side to move, castling rights, en-passant target, half-move clock and
full-move number all round-trip; this covers the standard starting position
and every reachable position. -/
theorem c5_fen_round_trip (b : ChessBoard)
    (h1 : b.half_move_clock ≤ 255) (h2 : b.full_move_number ≤ 65535) :
    ChessBoard.from_fen (ChessBoard.gen_fen b) = Except.ok b := by
  have hmr : List.map (ChessBoard.rankChars b) fenRanks
      = [ChessBoard.rankChars b Line.Rank8, ChessBoard.rankChars b Line.Rank7,
         ChessBoard.rankChars b Line.Rank6, ChessBoard.rankChars b Line.Rank5,
         ChessBoard.rankChars b Line.Rank4, ChessBoard.rankChars b Line.Rank3,
         ChessBoard.rankChars b Line.Rank2, ChessBoard.rankChars b Line.Rank1] := by
    simp [fenRanks]
  have hBFws : ∀ c ∈ joinSlash (List.map (ChessBoard.rankChars b) fenRanks),
      c.isWhitespace = false := by
    apply joinSlash_not_ws
    rw [hmr]
    intro r hr
    simp only [List.mem_cons, List.not_mem_nil, or_false] at hr
    rcases hr with rfl | rfl | rfl | rfl | rfl | rfl | rfl | rfl
    all_goals exact fun c hc => ((rank_string_facts b _ (by decide)).1 c hc).1
  have hBFne : joinSlash (List.map (ChessBoard.rankChars b) fenRanks) ≠ [] := by
    rw [hmr]
    exact joinSlash_ne_nil _ _ (rank_string_facts b _ (by decide)).2
  have hPFws : ∀ c ∈ [if b.is_white then 'w' else 'b'], c.isWhitespace = false := by
    cases b.is_white <;> decide
  have hPFne : ([if b.is_white then 'w' else 'b'] : List Char) ≠ [] := by simp
  have hEFws := epChars_not_ws b.en_passant
  have hEFne := epChars_ne_nil b.en_passant
  have hshape : ChessBoard.gen_fen b
      = joinSlash (List.map (ChessBoard.rankChars b) fenRanks)
        ++ ' ' :: ([if b.is_white then 'w' else 'b']
        ++ ' ' :: (CastlingRights.fenChars b.castling
        ++ ' ' :: ((match b.en_passant with
            | some ep => Square.chars ep
            | none => ['-'])
        ++ ' ' :: (natChars b.half_move_clock
        ++ ' ' :: natChars b.full_move_number)))) := by
    simp [ChessBoard.gen_fen, List.append_assoc]
  have hws1 : splitWs (ChessBoard.gen_fen b)
      = [joinSlash (List.map (ChessBoard.rankChars b) fenRanks),
         [if b.is_white then 'w' else 'b'],
         CastlingRights.fenChars b.castling,
         (match b.en_passant with
          | some ep => Square.chars ep
          | none => ['-']),
         natChars b.half_move_clock,
         natChars b.full_move_number] := by
    rw [hshape]
    rw [splitWs_word _ _ hBFws hBFne]
    rw [splitWs_word _ _ hPFws hPFne]
    rw [splitWs_word _ _ (fenChars_castling_not_ws b.castling)
      (fenChars_castling_ne_nil b.castling)]
    rw [splitWs_word _ _ hEFws hEFne]
    rw [splitWs_word _ _ (natChars_not_ws b.half_move_clock)
      (natChars_ne_nil b.half_move_clock)]
    rw [splitWs_last _ (natChars_not_ws b.full_move_number)
      (natChars_ne_nil b.full_move_number)]
  have hnoslash : ∀ r ∈ List.map (ChessBoard.rankChars b) fenRanks, '/' ∉ r := by
    rw [hmr]
    intro r hr
    simp only [List.mem_cons, List.not_mem_nil, or_false] at hr
    rcases hr with rfl | rfl | rfl | rfl | rfl | rfl | rfl | rfl
    all_goals exact fun hin => ((rank_string_facts b _ (by decide)).1 '/' hin).2 rfl
  have hss : splitSlash (joinSlash (List.map (ChessBoard.rankChars b) fenRanks))
      = List.map (ChessBoard.rankChars b) fenRanks :=
    splitSlash_joinSlash _ (by rw [hmr]; simp) hnoslash
  have e8 : ChessBoard.rankChars b Line.Rank8
      = rleSpec ((Line.toList Line.Rank8).map (ChessBoard.get b)) :=
    rankChars_eq_rleSpec b _ (by decide)
  have e7 : ChessBoard.rankChars b Line.Rank7
      = rleSpec ((Line.toList Line.Rank7).map (ChessBoard.get b)) :=
    rankChars_eq_rleSpec b _ (by decide)
  have e6 : ChessBoard.rankChars b Line.Rank6
      = rleSpec ((Line.toList Line.Rank6).map (ChessBoard.get b)) :=
    rankChars_eq_rleSpec b _ (by decide)
  have e5 : ChessBoard.rankChars b Line.Rank5
      = rleSpec ((Line.toList Line.Rank5).map (ChessBoard.get b)) :=
    rankChars_eq_rleSpec b _ (by decide)
  have e4 : ChessBoard.rankChars b Line.Rank4
      = rleSpec ((Line.toList Line.Rank4).map (ChessBoard.get b)) :=
    rankChars_eq_rleSpec b _ (by decide)
  have e3 : ChessBoard.rankChars b Line.Rank3
      = rleSpec ((Line.toList Line.Rank3).map (ChessBoard.get b)) :=
    rankChars_eq_rleSpec b _ (by decide)
  have e2 : ChessBoard.rankChars b Line.Rank2
      = rleSpec ((Line.toList Line.Rank2).map (ChessBoard.get b)) :=
    rankChars_eq_rleSpec b _ (by decide)
  have e1 : ChessBoard.rankChars b Line.Rank1
      = rleSpec ((Line.toList Line.Rank1).map (ChessBoard.get b)) :=
    rankChars_eq_rleSpec b _ (by decide)
  have hration : List.map (ChessBoard.rankChars b) fenRanks
      = List.map (fun s => rleSpec (s.map (ChessBoard.get b)))
          [Line.toList Line.Rank8, Line.toList Line.Rank7, Line.toList Line.Rank6,
           Line.toList Line.Rank5, Line.toList Line.Rank4, Line.toList Line.Rank3,
           Line.toList Line.Rank2, Line.toList Line.Rank1] := by
    rw [hmr, e8, e7, e6, e5, e4, e3, e2, e1]
    simp only [List.map_cons, List.map_nil]
  have hiter : Square.iteratorList
      = [Line.toList Line.Rank8, Line.toList Line.Rank7, Line.toList Line.Rank6,
         Line.toList Line.Rank5, Line.toList Line.Rank4, Line.toList Line.Rank3,
         Line.toList Line.Rank2, Line.toList Line.Rank1].flatten ++ ([] : List Square) := by
    decide
  have hpar : parseRanks
      (splitSlash (joinSlash (List.map (ChessBoard.rankChars b) fenRanks)))
      Square.iteratorList (fun _ => none)
      = .ok (overlay (fun _ => none)
          ([Line.toList Line.Rank8, Line.toList Line.Rank7, Line.toList Line.Rank6,
            Line.toList Line.Rank5, Line.toList Line.Rank4, Line.toList Line.Rank3,
            Line.toList Line.Rank2, Line.toList Line.Rank1].flatten)
          (([Line.toList Line.Rank8, Line.toList Line.Rank7, Line.toList Line.Rank6,
             Line.toList Line.Rank5, Line.toList Line.Rank4, Line.toList Line.Rank3,
             Line.toList Line.Rank2, Line.toList Line.Rank1].flatten).map
            (ChessBoard.get b)), []) := by
    rw [hss, hration, hiter]
    exact parseRanks_segments _ [] (ChessBoard.get b) (fun _ => none) (by decide)
  have hfun : overlay (fun _ => none)
      ([Line.toList Line.Rank8, Line.toList Line.Rank7, Line.toList Line.Rank6,
        Line.toList Line.Rank5, Line.toList Line.Rank4, Line.toList Line.Rank3,
        Line.toList Line.Rank2, Line.toList Line.Rank1].flatten)
      (([Line.toList Line.Rank8, Line.toList Line.Rank7, Line.toList Line.Rank6,
         Line.toList Line.Rank5, Line.toList Line.Rank4, Line.toList Line.Rank3,
         Line.toList Line.Rank2, Line.toList Line.Rank1].flatten).map
        (ChessBoard.get b)) = b.piece_locs := by
    funext x
    rw [overlay_full _ _ _ x (by decide) ?mem]
    case mem =>
      have hflat : ([Line.toList Line.Rank8, Line.toList Line.Rank7, Line.toList Line.Rank6,
          Line.toList Line.Rank5, Line.toList Line.Rank4, Line.toList Line.Rank3,
          Line.toList Line.Rank2, Line.toList Line.Rank1].flatten) = Square.iteratorList := by
        decide
      rw [hflat]
      exact List.mem_finRange x
    show (if (ChessBoard.get b x).isSome then ChessBoard.get b x else none)
        = b.piece_locs x
    unfold ChessBoard.get
    cases hpx : b.piece_locs x <;> simp
  unfold ChessBoard.from_fen
  rw [hws1]
  simp only []
  rw [hpar]
  simp only [Except.bind, Bind.bind, Except.instMonad, Except.pure, pure]
  rw [hfun]
  rw [parseCastling_fenChars b.castling]
  rw [parseEp_round b.en_passant]
  rw [parseNat_natChars 255 b.half_move_clock h1]
  rw [parseNat_natChars 65535 b.full_move_number h2]
  cases hw : b.is_white
  · show Except.ok (ChessBoard.mk b.piece_locs false b.castling b.en_passant
        b.half_move_clock b.full_move_number) = Except.ok b
    rw [← hw]
  · show Except.ok (ChessBoard.mk b.piece_locs true b.castling b.en_passant
        b.half_move_clock b.full_move_number) = Except.ok b
    rw [← hw]

/-- Witness for C5: the round trip at the standard starting position, whose
clocks satisfy the counter bounds. -/
theorem c5_witness : ChessBoard.startBoard.half_move_clock ≤ 255
    ∧ ChessBoard.startBoard.full_move_number ≤ 65535
    ∧ ChessBoard.from_fen (ChessBoard.gen_fen ChessBoard.startBoard)
        = Except.ok ChessBoard.startBoard :=
  ⟨by decide, by decide, c5_fen_round_trip ChessBoard.startBoard (by decide) (by decide)⟩
